import Mathlib

/-!
# ARINC 429 word codec of the HI-3593 shield library

Shallow embedding of the pure functions of `SRC/Arduino/HI-3593.cpp`:
`BuildArincWord`, `SplitArincWord`, `BuildArincWordFloat`, `SplitArincWordFloat`
and `cbnSsm`, and of the label constants `o000` .. `o377` of `HI-3593.h`.

Conventions of the embedding.

* `unsigned long` is a natural number reduced modulo `2^32`; `unsigned char`
  arguments are natural numbers, the theorems bound them by their C range.
* The BNR codec is embedded twice. `BuildArincWord` and `SplitArincWord` take the
  arithmetic of the build and split formulas as exact: `float` values are
  rationals and no operation rounds. `BuildArincWordF32` and `SplitArincWordF32`
  are the same functions in the arithmetic of the AVR targets of the library,
  where `float` and `double` are both IEEE-754 binary32: a finite value is the
  rational it denotes and every operation returns `roundF32` of the exact
  result. Infinities and NaN are not represented.
* The float codec works on IEEE-754 single precision bit patterns (natural
  numbers below `2^32`); the product `1.000030f * data` is computed by the
  floating point multiplication of the target, which is a parameter `fmul`
  acting on bit patterns.
* `long int` and `unsigned long` are 32 bits wide, bytes of a word are indexed
  little-endian (AVR and ARM Arduino targets); signed shifts and conversions wrap
  modulo `2^32`.
* A zero range makes `d / r` zero in the rationals; the statements about decoded
  data all assume `0 < r`.
-/

namespace HI3593

/-! ## Machine integers -/

/-- Conversion of an integer to `unsigned long`: reduction modulo `2^32`. -/
def toU32 (z : Int) : Nat := (z % 4294967296).toNat

/-- Reinterpretation of a 32-bit pattern as a two's-complement `signed long`. -/
def toS32 (n : Nat) : Int :=
  if n % 4294967296 < 2147483648 then ((n % 4294967296 : Nat) : Int)
  else ((n % 4294967296 : Nat) : Int) - 4294967296

/-- The C conversion `(long int) x` of a floating value: truncation toward zero. -/
def ftol (x : ℚ) : Int := if 0 ≤ x then ⌊x⌋ else ⌈x⌉

/-- Byte `i` of a word seen as `unsigned char[4]`, i.e. `((unsigned char*)&aw)[i]`. -/
def byteAt (aw : Nat) (i : Nat) : Nat := (aw >>> (8 * i)) % 256

/-- The constant `NOSDI` of `HI-3593.h`. -/
def NOSDI : Nat := 4

/-! ## BNR codec -/

/-- The value `ld` of `BuildArincWord` just before rounding, in exact arithmetic:
`d/r * 262144`, multiplied by 4 when `sdi > 3`. -/
def scaledBnr (r d : ℚ) (sdi : Nat) : ℚ :=
  let ld : ℚ := d / r * 262144
  let noSdi : Bool := decide (sdi > 3)
  if noSdi then ld * 4 else ld

/-- The rounding expression `ld>0?(long int)(ld+0.5):(long int)(ld-0.5)`. -/
def roundLong (ld : ℚ) : Int :=
  if ld > 0 then ftol (ld + 1 / 2) else ftol (ld - 1 / 2)

/-- The rounded quantized integer of `BuildArincWord`. -/
def quantizedBnr (r d : ℚ) (sdi : Nat) : Int := roundLong (scaledBnr r d sdi)

/-- Embedding of `BuildArincWord(r, d, ssm, sdi, label)` in exact arithmetic. The
conversion of the rounded value to `unsigned long` keeps its low 32 bits; `(unsigned int)sdi << 8` is
only evaluated for `sdi ≤ 3`, where it cannot overflow. -/
def BuildArincWord (r d : ℚ) (ssm sdi label : Nat) : Nat :=
  let noSdi : Bool := decide (sdi > 3)
  let w : Nat := toU32 (quantizedBnr r d sdi)
  if noSdi then
    ((ssm <<< 29) % 4294967296) ||| (((w <<< 8) % 4294967296) &&& 0x1fffffff) ||| label
  else
    ((ssm <<< 29) % 4294967296) ||| (((w <<< 10) % 4294967296) &&& 0x1fffffff)
      ||| (sdi <<< 8) ||| label

/-- Embedding of `SplitArincWord(aw, noSdi, range, data, ssm, sdi)` in exact
arithmetic; the three output parameters are returned as a triple
`(data, ssm, sdi)`. -/
def SplitArincWord (aw : Nat) (noSdi : Bool) (range : ℚ) : ℚ × Nat × Nat :=
  let masked : Nat := aw &&& (if noSdi then 0xffffff00 else 0xfffffc00)
  let data : ℚ := range / 2147483648 * ((toS32 (toU32 (toS32 masked * 8)) : Int) : ℚ)
  let ssm : Nat := (byteAt aw 3 &&& 0x60) >>> 5
  let sdi : Nat := if noSdi then 0 else byteAt aw 1 &&& 0x03
  (data, ssm, sdi)

/-! ## Binary32 arithmetic -/

/-- Rounding of a rational to the nearest integer, ties to the even one. -/
def roundHalfEven (y : ℚ) : Int :=
  if y - ⌊y⌋ < 1 / 2 then ⌊y⌋
  else if 1 / 2 < y - ⌊y⌋ then ⌊y⌋ + 1
  else if ⌊y⌋ % 2 = 0 then ⌊y⌋ else ⌊y⌋ + 1

/-- Exponent `e` of the binade of `x` (`2^e ≤ |x| < 2^(e+1)`), not below the exponent
`-126` shared by the smallest normal and the subnormal binary32 values. -/
def f32Exp (x : ℚ) : Int := max (Int.log 2 |x|) (-126)

/-- Rounding of a rational to binary32, round to nearest, ties to even: the nearest
multiple of `2^(e-23)`, `e` the exponent of `x`. A result beyond the largest finite
binary32 value stands for an overflow, which is not represented. -/
def roundF32 (x : ℚ) : ℚ :=
  (roundHalfEven (x / 2 ^ (f32Exp x - 23)) : ℚ) * 2 ^ (f32Exp x - 23)

/-- The rational denoted by the binary32 bit pattern `u` (finite patterns: exponent
field below 255). -/
def f32Value (u : Nat) : ℚ :=
  let s : ℚ := if u / 2147483648 % 2 = 1 then -1 else 1
  let e : Nat := u / 8388608 % 256
  let m : Nat := u % 8388608
  if e = 0 then s * m * 2 ^ (-149 : Int) else s * (8388608 + m) * 2 ^ ((e : Int) - 150)

/-! ## BNR codec in binary32 arithmetic -/

/-- Embedding of `SplitArincWord(aw, noSdi, range, data, ssm, sdi)` in binary32
arithmetic: the quotient `range/2.147483648e9`, the conversion of the shifted
`signed long` to floating point and their product are each rounded. -/
def SplitArincWordF32 (aw : Nat) (noSdi : Bool) (range : ℚ) : ℚ × Nat × Nat :=
  let masked : Nat := aw &&& (if noSdi then 0xffffff00 else 0xfffffc00)
  let data : ℚ := roundF32 (roundF32 (range / 2147483648)
    * roundF32 ((toS32 (toU32 (toS32 masked * 8)) : Int) : ℚ))
  let ssm : Nat := (byteAt aw 3 &&& 0x60) >>> 5
  let sdi : Nat := if noSdi then 0 else byteAt aw 1 &&& 0x03
  (data, ssm, sdi)

/-! ## Float codec -/

/-- Bit pattern of the single precision constant `1.000030f`. -/
def scaleFactorBits : Nat := 0x3F8000FC

/-- The IEEE-754 single precision test `isnan` on a bit pattern: exponent bits all
ones and mantissa not zero. -/
def isnanBits (u : Nat) : Bool :=
  ((u >>> 23) &&& 0xff == 0xff) && (u &&& 0x7fffff != 0)

/-- Embedding of `BuildArincWordFloat(data, vld, label)`; `data` is the bit pattern
of the float and `fmul` the single precision multiplication on bit patterns. -/
def BuildArincWordFloat (fmul : Nat → Nat → Nat) (data : Nat) (vld : Bool)
    (label : Nat) : Nat :=
  if vld then
    let u : Nat := fmul scaleFactorBits data % 4294967296
    ((u >>> 1) &&& 0x7fffff00) ||| label
  else 0x3fe00000 ||| label

/-- The pattern `un.u` that `SplitArincWordFloat` reinterprets as a float. -/
def floatPattern (aw : Nat) : Nat := ((aw &&& 0x7fffff00) <<< 1) % 4294967296

/-- Embedding of `SplitArincWordFloat(aw, data, vld)`; returns the bit pattern of
`data` (pattern `0` is `0.0f`) and the flag `vld`. -/
def SplitArincWordFloat (aw : Nat) : Nat × Bool :=
  let u : Nat := floatPattern aw
  let vld : Bool := !isnanBits u
  (if vld then u else 0, vld)

/-- A multiplication on bit patterns that is only trusted for products by `1.0f`
(pattern `0x3F800000`), where IEEE-754 gives `x * 1.0f = x` exactly; used to evaluate
`BuildArincWordFloat` on `data = 1.0f`. -/
def mulByOne (a b : Nat) : Nat := if b = 0x3F800000 then a else 0

/-- A multiplication on bit patterns that is only trusted for a NaN second operand,
where the product is a quiet NaN: the operand with mantissa bit 22 set. -/
def mulQuietNaN (_a b : Nat) : Nat := if isnanBits b then b ||| 0x400000 else 0

/-! ## SSM combiner -/

/-- Embedding of `cbnSsm(Ssm1, Ssm2)`. -/
def cbnSsm (Ssm1 Ssm2 : Nat) : Nat :=
  if Ssm1 = 3 ∧ Ssm2 = 3 then 3 else (if Ssm1 = 0 ∨ Ssm2 = 0 then 0 else 1)

/-! ## Label table

The constants `o000` .. `o377` of `HI-3593.h`, one definition per `#define`. -/

def o000 : Nat := 0
def o001 : Nat := 128
def o002 : Nat := 64
def o003 : Nat := 192
def o004 : Nat := 32
def o005 : Nat := 160
def o006 : Nat := 96
def o007 : Nat := 224
def o010 : Nat := 16
def o011 : Nat := 144
def o012 : Nat := 80
def o013 : Nat := 208
def o014 : Nat := 48
def o015 : Nat := 176
def o016 : Nat := 112
def o017 : Nat := 240
def o020 : Nat := 8
def o021 : Nat := 136
def o022 : Nat := 72
def o023 : Nat := 200
def o024 : Nat := 40
def o025 : Nat := 168
def o026 : Nat := 104
def o027 : Nat := 232
def o030 : Nat := 24
def o031 : Nat := 152
def o032 : Nat := 88
def o033 : Nat := 216
def o034 : Nat := 56
def o035 : Nat := 184
def o036 : Nat := 120
def o037 : Nat := 248
def o040 : Nat := 4
def o041 : Nat := 132
def o042 : Nat := 68
def o043 : Nat := 196
def o044 : Nat := 36
def o045 : Nat := 164
def o046 : Nat := 100
def o047 : Nat := 228
def o050 : Nat := 20
def o051 : Nat := 148
def o052 : Nat := 84
def o053 : Nat := 212
def o054 : Nat := 52
def o055 : Nat := 180
def o056 : Nat := 116
def o057 : Nat := 244
def o060 : Nat := 12
def o061 : Nat := 140
def o062 : Nat := 76
def o063 : Nat := 204
def o064 : Nat := 44
def o065 : Nat := 172
def o066 : Nat := 108
def o067 : Nat := 236
def o070 : Nat := 28
def o071 : Nat := 156
def o072 : Nat := 92
def o073 : Nat := 220
def o074 : Nat := 60
def o075 : Nat := 188
def o076 : Nat := 124
def o077 : Nat := 252
def o100 : Nat := 2
def o101 : Nat := 130
def o102 : Nat := 66
def o103 : Nat := 194
def o104 : Nat := 34
def o105 : Nat := 162
def o106 : Nat := 98
def o107 : Nat := 226
def o110 : Nat := 18
def o111 : Nat := 146
def o112 : Nat := 82
def o113 : Nat := 210
def o114 : Nat := 50
def o115 : Nat := 178
def o116 : Nat := 114
def o117 : Nat := 242
def o120 : Nat := 10
def o121 : Nat := 138
def o122 : Nat := 74
def o123 : Nat := 202
def o124 : Nat := 42
def o125 : Nat := 170
def o126 : Nat := 106
def o127 : Nat := 234
def o130 : Nat := 26
def o131 : Nat := 154
def o132 : Nat := 90
def o133 : Nat := 218
def o134 : Nat := 58
def o135 : Nat := 186
def o136 : Nat := 122
def o137 : Nat := 250
def o140 : Nat := 6
def o141 : Nat := 134
def o142 : Nat := 70
def o143 : Nat := 198
def o144 : Nat := 38
def o145 : Nat := 166
def o146 : Nat := 102
def o147 : Nat := 230
def o150 : Nat := 22
def o151 : Nat := 150
def o152 : Nat := 86
def o153 : Nat := 214
def o154 : Nat := 54
def o155 : Nat := 182
def o156 : Nat := 118
def o157 : Nat := 246
def o160 : Nat := 14
def o161 : Nat := 142
def o162 : Nat := 78
def o163 : Nat := 206
def o164 : Nat := 46
def o165 : Nat := 174
def o166 : Nat := 110
def o167 : Nat := 238
def o170 : Nat := 30
def o171 : Nat := 158
def o172 : Nat := 94
def o173 : Nat := 222
def o174 : Nat := 62
def o175 : Nat := 190
def o176 : Nat := 126
def o177 : Nat := 254
def o200 : Nat := 1
def o201 : Nat := 129
def o202 : Nat := 65
def o203 : Nat := 193
def o204 : Nat := 33
def o205 : Nat := 161
def o206 : Nat := 97
def o207 : Nat := 225
def o210 : Nat := 17
def o211 : Nat := 145
def o212 : Nat := 81
def o213 : Nat := 209
def o214 : Nat := 49
def o215 : Nat := 177
def o216 : Nat := 113
def o217 : Nat := 241
def o220 : Nat := 9
def o221 : Nat := 137
def o222 : Nat := 73
def o223 : Nat := 201
def o224 : Nat := 41
def o225 : Nat := 169
def o226 : Nat := 105
def o227 : Nat := 233
def o230 : Nat := 25
def o231 : Nat := 153
def o232 : Nat := 89
def o233 : Nat := 217
def o234 : Nat := 57
def o235 : Nat := 185
def o236 : Nat := 121
def o237 : Nat := 249
def o240 : Nat := 5
def o241 : Nat := 133
def o242 : Nat := 69
def o243 : Nat := 197
def o244 : Nat := 37
def o245 : Nat := 165
def o246 : Nat := 101
def o247 : Nat := 229
def o250 : Nat := 21
def o251 : Nat := 149
def o252 : Nat := 85
def o253 : Nat := 213
def o254 : Nat := 53
def o255 : Nat := 181
def o256 : Nat := 117
def o257 : Nat := 245
def o260 : Nat := 13
def o261 : Nat := 141
def o262 : Nat := 77
def o263 : Nat := 205
def o264 : Nat := 45
def o265 : Nat := 173
def o266 : Nat := 109
def o267 : Nat := 237
def o270 : Nat := 29
def o271 : Nat := 157
def o272 : Nat := 93
def o273 : Nat := 221
def o274 : Nat := 61
def o275 : Nat := 189
def o276 : Nat := 125
def o277 : Nat := 253
def o300 : Nat := 3
def o301 : Nat := 131
def o302 : Nat := 67
def o303 : Nat := 195
def o304 : Nat := 35
def o305 : Nat := 163
def o306 : Nat := 99
def o307 : Nat := 227
def o310 : Nat := 19
def o311 : Nat := 147
def o312 : Nat := 83
def o313 : Nat := 211
def o314 : Nat := 51
def o315 : Nat := 179
def o316 : Nat := 115
def o317 : Nat := 243
def o320 : Nat := 11
def o321 : Nat := 139
def o322 : Nat := 75
def o323 : Nat := 203
def o324 : Nat := 43
def o325 : Nat := 171
def o326 : Nat := 107
def o327 : Nat := 235
def o330 : Nat := 27
def o331 : Nat := 155
def o332 : Nat := 91
def o333 : Nat := 219
def o334 : Nat := 59
def o335 : Nat := 187
def o336 : Nat := 123
def o337 : Nat := 251
def o340 : Nat := 7
def o341 : Nat := 135
def o342 : Nat := 71
def o343 : Nat := 199
def o344 : Nat := 39
def o345 : Nat := 167
def o346 : Nat := 103
def o347 : Nat := 231
def o350 : Nat := 23
def o351 : Nat := 151
def o352 : Nat := 87
def o353 : Nat := 215
def o354 : Nat := 55
def o355 : Nat := 183
def o356 : Nat := 119
def o357 : Nat := 247
def o360 : Nat := 15
def o361 : Nat := 143
def o362 : Nat := 79
def o363 : Nat := 207
def o364 : Nat := 47
def o365 : Nat := 175
def o366 : Nat := 111
def o367 : Nat := 239
def o370 : Nat := 31
def o371 : Nat := 159
def o372 : Nat := 95
def o373 : Nat := 223
def o374 : Nat := 63
def o375 : Nat := 191
def o376 : Nat := 127
def o377 : Nat := 255

/-- The label constants in the order of their names: entry `n` is the constant whose
name is the 3-digit octal writing of `n`. -/
def labelTable : List Nat := [
  o000, o001, o002, o003, o004, o005, o006, o007,
  o010, o011, o012, o013, o014, o015, o016, o017,
  o020, o021, o022, o023, o024, o025, o026, o027,
  o030, o031, o032, o033, o034, o035, o036, o037,
  o040, o041, o042, o043, o044, o045, o046, o047,
  o050, o051, o052, o053, o054, o055, o056, o057,
  o060, o061, o062, o063, o064, o065, o066, o067,
  o070, o071, o072, o073, o074, o075, o076, o077,
  o100, o101, o102, o103, o104, o105, o106, o107,
  o110, o111, o112, o113, o114, o115, o116, o117,
  o120, o121, o122, o123, o124, o125, o126, o127,
  o130, o131, o132, o133, o134, o135, o136, o137,
  o140, o141, o142, o143, o144, o145, o146, o147,
  o150, o151, o152, o153, o154, o155, o156, o157,
  o160, o161, o162, o163, o164, o165, o166, o167,
  o170, o171, o172, o173, o174, o175, o176, o177,
  o200, o201, o202, o203, o204, o205, o206, o207,
  o210, o211, o212, o213, o214, o215, o216, o217,
  o220, o221, o222, o223, o224, o225, o226, o227,
  o230, o231, o232, o233, o234, o235, o236, o237,
  o240, o241, o242, o243, o244, o245, o246, o247,
  o250, o251, o252, o253, o254, o255, o256, o257,
  o260, o261, o262, o263, o264, o265, o266, o267,
  o270, o271, o272, o273, o274, o275, o276, o277,
  o300, o301, o302, o303, o304, o305, o306, o307,
  o310, o311, o312, o313, o314, o315, o316, o317,
  o320, o321, o322, o323, o324, o325, o326, o327,
  o330, o331, o332, o333, o334, o335, o336, o337,
  o340, o341, o342, o343, o344, o345, o346, o347,
  o350, o351, o352, o353, o354, o355, o356, o357,
  o360, o361, o362, o363, o364, o365, o366, o367,
  o370, o371, o372, o373, o374, o375, o376, o377]

/-- The wire value of label `n`: the constant named by the octal writing of `n`. -/
def wireLabel (n : Nat) : Nat := labelTable.getD n 0


/-! ## Reference quantities used in the statements -/

/-- Two's-complement value of the low `n` bits of `x`. -/
def signedField (n : Nat) (x : Nat) : Int :=
  if x % 2 ^ n < 2 ^ (n - 1) then ((x % 2 ^ n : Nat) : Int)
  else ((x % 2 ^ n : Nat) : Int) - 2 ^ n

/-- The byte obtained by reversing the 8 bits of `n`: bit `k` of `n` becomes bit
`7 - k`. -/
def reverse8 (n : Nat) : Nat :=
  n % 2 * 128 + n / 2 % 2 * 64 + n / 4 % 2 * 32 + n / 8 % 2 * 16 + n / 16 % 2 * 8
    + n / 32 % 2 * 4 + n / 64 % 2 * 2 + n / 128 % 2

/-! ## Bit level lemmas -/

theorem and_mask_hi (x k n : Nat) (h : k ≤ n) :
    x &&& ((2 ^ (n - k) - 1) <<< k) = x % 2 ^ n / 2 ^ k * 2 ^ k := by
  apply Nat.eq_of_testBit_eq
  intro i
  rw [← Nat.shiftLeft_eq, ← Nat.shiftRight_eq_div_pow]
  simp only [Nat.testBit_and, Nat.testBit_shiftLeft, Nat.testBit_two_pow_sub_one,
    Nat.testBit_shiftRight, Nat.testBit_mod_two_pow]
  by_cases h1 : k ≤ i
  · have e : k + (i - k) = i := by omega
    by_cases h2 : i < n
    · have h3 : i - k < n - k := by omega
      simp [h1, h2, h3, e]
    · have h3 : ¬ (i - k < n - k) := by omega
      simp [h1, h2, h3, e]
  · simp [h1]

theorem and_fffffc00 (x : Nat) : x &&& 0xfffffc00 = x % 4294967296 / 1024 * 1024 := by
  have h := and_mask_hi x 10 32 (by norm_num)
  norm_num at h
  exact h

theorem and_ffffff00 (x : Nat) : x &&& 0xffffff00 = x % 4294967296 / 256 * 256 := by
  have h := and_mask_hi x 8 32 (by norm_num)
  norm_num at h
  exact h

theorem and_7fffff00 (x : Nat) : x &&& 0x7fffff00 = x % 2147483648 / 256 * 256 := by
  have h := and_mask_hi x 8 31 (by norm_num)
  norm_num at h
  exact h

theorem and_60 (x : Nat) : x &&& 0x60 = x % 128 / 32 * 32 := by
  have h := and_mask_hi x 5 7 (by norm_num)
  norm_num at h
  exact h

theorem and_1fffffff (x : Nat) : x &&& 0x1fffffff = x % 536870912 := by
  have h := Nat.and_pow_two_sub_one_eq_mod x 29
  norm_num at h
  exact h

theorem and_03 (x : Nat) : x &&& 0x03 = x % 4 := by
  have h := Nat.and_pow_two_sub_one_eq_mod x 2
  norm_num at h
  exact h

theorem and_ff (x : Nat) : x &&& 0xff = x % 256 := by
  have h := Nat.and_pow_two_sub_one_eq_mod x 8
  norm_num at h
  exact h

theorem and_7fffff (x : Nat) : x &&& 0x7fffff = x % 8388608 := by
  have h := Nat.and_pow_two_sub_one_eq_mod x 23
  norm_num at h
  exact h

/-- An `or` of a multiple of `2^i` with a value below `2^i` is their sum. -/
theorem or_eq_add (i a b c : Nat) (hc : c = 2 ^ i * a) (hb : b < 2 ^ i) :
    c ||| b = c + b := by
  subst hc
  exact (Nat.mul_add_lt_is_or hb a).symm

/-- Arithmetic form of the word assembled by `BuildArincWord` when `sdi ≤ 3`. -/
theorem pack_sdi (w ssm sdi label : Nat) (hs : ssm < 4) (hd : sdi < 4) (hl : label < 256) :
    ((ssm <<< 29) % 4294967296) ||| (((w <<< 10) % 4294967296) &&& 0x1fffffff)
      ||| (sdi <<< 8) ||| label
      = ssm * 536870912 + (w % 524288) * 1024 + sdi * 256 + label := by
  have e1 : (ssm <<< 29) % 4294967296 = ssm * 536870912 := by
    rw [Nat.shiftLeft_eq]; omega
  have e2 : ((w <<< 10) % 4294967296) &&& 0x1fffffff = (w % 524288) * 1024 := by
    rw [and_1fffffff, Nat.shiftLeft_eq]; omega
  have e3 : sdi <<< 8 = sdi * 256 := by
    rw [Nat.shiftLeft_eq]
  rw [e1, e2, e3]
  rw [or_eq_add 29 ssm ((w % 524288) * 1024) (ssm * 536870912) (by omega) (by omega)]
  rw [or_eq_add 10 (ssm * 524288 + w % 524288) (sdi * 256) _ (by omega) (by omega)]
  rw [or_eq_add 8 (ssm * 2097152 + (w % 524288) * 4 + sdi) label _ (by omega) (by omega)]

/-- Arithmetic form of the word assembled by `BuildArincWord` when `sdi > 3`. -/
theorem pack_nosdi (w ssm label : Nat) (hs : ssm < 4) (hl : label < 256) :
    ((ssm <<< 29) % 4294967296) ||| (((w <<< 8) % 4294967296) &&& 0x1fffffff) ||| label
      = ssm * 536870912 + (w % 2097152) * 256 + label := by
  have e1 : (ssm <<< 29) % 4294967296 = ssm * 536870912 := by
    rw [Nat.shiftLeft_eq]; omega
  have e2 : ((w <<< 8) % 4294967296) &&& 0x1fffffff = (w % 2097152) * 256 := by
    rw [and_1fffffff, Nat.shiftLeft_eq]; omega
  rw [e1, e2]
  rw [or_eq_add 29 ssm ((w % 2097152) * 256) (ssm * 536870912) (by omega) (by omega)]
  rw [or_eq_add 8 (ssm * 2097152 + w % 2097152) label _ (by omega) (by omega)]

/-- Arithmetic form of `BuildArincWord` in SDI mode. -/
theorem build_sdi_eq (r d : ℚ) (ssm sdi label : Nat) (hs : ssm < 4) (hd : sdi < 4)
    (hl : label < 256) :
    BuildArincWord r d ssm sdi label
      = ssm * 536870912 + (toU32 (quantizedBnr r d sdi) % 524288) * 1024 + sdi * 256
        + label := by
  have h3 : ¬ (sdi > 3) := by omega
  simp only [BuildArincWord, h3, decide_False, Bool.false_eq_true, if_false]
  exact pack_sdi _ ssm sdi label hs hd hl

/-- Arithmetic form of `BuildArincWord` in no-SDI mode. -/
theorem build_nosdi_eq (r d : ℚ) (ssm sdi label : Nat) (hs : ssm < 4) (hd : 4 ≤ sdi)
    (hl : label < 256) :
    BuildArincWord r d ssm sdi label
      = ssm * 536870912 + (toU32 (quantizedBnr r d sdi) % 2097152) * 256 + label := by
  have h3 : sdi > 3 := by omega
  simp only [BuildArincWord, h3, decide_True, if_true]
  exact pack_nosdi _ ssm label hs hl

/-- The SSM returned by `SplitArincWord` is the two bits 29-30 of the word. -/
theorem split_ssm (aw : Nat) (noSdi : Bool) (range : ℚ) :
    (SplitArincWord aw noSdi range).2.1 = aw / 536870912 % 4 := by
  simp only [SplitArincWord, byteAt, and_60, Nat.shiftRight_eq_div_pow]
  norm_num
  omega

/-- The SDI returned by `SplitArincWord` in SDI mode is the two bits 8-9 of the word. -/
theorem split_sdi (aw : Nat) (range : ℚ) :
    (SplitArincWord aw false range).2.2 = aw / 256 % 4 := by
  simp only [SplitArincWord, byteAt, and_03, Nat.shiftRight_eq_div_pow]
  norm_num

/-- The SDI returned by `SplitArincWord` in no-SDI mode is 0. -/
theorem split_sdi_nosdi (aw : Nat) (range : ℚ) :
    (SplitArincWord aw true range).2.2 = 0 := by
  simp [SplitArincWord]

/-- The signed shift of the masked word, SDI mode: the 19-bit field, sign extended,
times `2^13`. -/
theorem shl3_field19 (aw : Nat) :
    toS32 (toU32 (toS32 (aw &&& 0xfffffc00) * 8)) = signedField 19 (aw / 1024) * 8192 := by
  rw [and_fffffc00]
  have p19 : (2 : Nat) ^ 19 = 524288 := by norm_num
  have p18 : (2 : Nat) ^ (19 - 1) = 262144 := by norm_num
  have q19 : (2 : Int) ^ 19 = 524288 := by norm_num
  simp only [toS32, toU32, signedField, p19, p18, q19]
  split_ifs <;> omega

/-- The signed shift of the masked word, no-SDI mode: the 21-bit field, sign
extended, times `2^11`. -/
theorem shl3_field21 (aw : Nat) :
    toS32 (toU32 (toS32 (aw &&& 0xffffff00) * 8)) = signedField 21 (aw / 256) * 2048 := by
  rw [and_ffffff00]
  have p21 : (2 : Nat) ^ 21 = 2097152 := by norm_num
  have p20 : (2 : Nat) ^ (21 - 1) = 1048576 := by norm_num
  have q21 : (2 : Int) ^ 21 = 2097152 := by norm_num
  simp only [toS32, toU32, signedField, p21, p20, q21]
  split_ifs <;> omega

/-- Data decoded by `SplitArincWord` in SDI mode, for any word. -/
theorem split_data_sdi (aw : Nat) (range : ℚ) :
    (SplitArincWord aw false range).1
      = range * ((signedField 19 (aw / 1024) : Int) : ℚ) / 262144 := by
  simp only [SplitArincWord, Bool.false_eq_true, if_false, shl3_field19]
  push_cast
  ring

/-- Data decoded by `SplitArincWord` in no-SDI mode, for any word. -/
theorem split_data_nosdi (aw : Nat) (range : ℚ) :
    (SplitArincWord aw true range).1
      = range * ((signedField 21 (aw / 256) : Int) : ℚ) / 1048576 := by
  simp only [SplitArincWord, if_true, shl3_field21]
  push_cast
  ring

/-- A quantized value inside the signed 19-bit range is read back unchanged from the
data field. -/
theorem signedField19_toU32 (q : Int) (x : Nat) (lo : -262144 ≤ q) (hi : q < 262144)
    (hx : x % 524288 = toU32 q % 524288) : signedField 19 x = q := by
  have p19 : (2 : Nat) ^ 19 = 524288 := by norm_num
  have p18 : (2 : Nat) ^ (19 - 1) = 262144 := by norm_num
  have q19 : (2 : Int) ^ 19 = 524288 := by norm_num
  simp only [toU32] at hx
  simp only [signedField, p19, p18, q19]
  split_ifs <;> omega

/-- A quantized value inside the signed 21-bit range is read back unchanged from the
data field. -/
theorem signedField21_toU32 (q : Int) (x : Nat) (lo : -1048576 ≤ q) (hi : q < 1048576)
    (hx : x % 2097152 = toU32 q % 2097152) : signedField 21 x = q := by
  have p21 : (2 : Nat) ^ 21 = 2097152 := by norm_num
  have p20 : (2 : Nat) ^ (21 - 1) = 1048576 := by norm_num
  have q21 : (2 : Int) ^ 21 = 2097152 := by norm_num
  simp only [toU32] at hx
  simp only [signedField, p21, p20, q21]
  split_ifs <;> omega

/-! ## Rounding lemmas -/

/-- The rounding of `BuildArincWord` moves its argument by at most one half. -/
theorem roundLong_err (x : ℚ) : |((roundLong x : Int) : ℚ) - x| ≤ 1 / 2 := by
  unfold roundLong ftol
  rw [abs_le]
  by_cases hx : x > 0
  · have h0 : (0 : ℚ) ≤ x + 1 / 2 := by linarith
    simp only [hx, h0, if_true]
    have h1 := Int.floor_le (x + 1 / 2)
    have h2 := Int.lt_floor_add_one (x + 1 / 2)
    constructor <;> linarith
  · have h0 : ¬ ((0 : ℚ) ≤ x - 1 / 2) := by
      push_neg at hx ⊢
      linarith
    simp only [hx, h0, if_false]
    have h1 := Int.le_ceil (x - 1 / 2)
    have h2 := Int.ceil_lt_add_one (x - 1 / 2)
    constructor <;> linarith

/-- Upper bound on the rounded value. -/
theorem roundLong_lt (x : ℚ) (n : Int) (h : x < (n : ℚ) - 1 / 2) : roundLong x < n := by
  unfold roundLong ftol
  by_cases hx : x > 0
  · have h0 : (0 : ℚ) ≤ x + 1 / 2 := by linarith
    simp only [hx, h0, if_true]
    rw [Int.floor_lt]
    linarith
  · have h0 : ¬ ((0 : ℚ) ≤ x - 1 / 2) := by
      push_neg at hx ⊢
      linarith
    simp only [hx, h0, if_false]
    have h1 : ⌈x - 1 / 2⌉ ≤ n - 1 := by
      rw [Int.ceil_le]
      push_cast
      linarith
    omega

/-- Lower bound on the rounded value. -/
theorem roundLong_ge (x : ℚ) (n : Int) (h : (n : ℚ) - 1 / 2 < x) : n ≤ roundLong x := by
  unfold roundLong ftol
  by_cases hx : x > 0
  · have h0 : (0 : ℚ) ≤ x + 1 / 2 := by linarith
    simp only [hx, h0, if_true]
    rw [Int.le_floor]
    linarith
  · have h0 : ¬ ((0 : ℚ) ≤ x - 1 / 2) := by
      push_neg at hx ⊢
      linarith
    simp only [hx, h0, if_false]
    have h1 : n - 1 < ⌈x - 1 / 2⌉ := by
      rw [Int.lt_ceil]
      push_cast
      linarith
    omega

/-! ## Round trip through the data field -/

/-- In SDI mode a quantized value that fits 19 signed bits is decoded as
`range * q / 2^18`. -/
theorem roundtrip_sdi_fit (r d : ℚ) (ssm sdi label : Nat) (hs : ssm < 4) (hd : sdi < 4)
    (hl : label < 256) (lo : -262144 ≤ quantizedBnr r d sdi)
    (hi : quantizedBnr r d sdi < 262144) :
    (SplitArincWord (BuildArincWord r d ssm sdi label) false r).1
      = r * ((quantizedBnr r d sdi : Int) : ℚ) / 262144 := by
  rw [split_data_sdi, build_sdi_eq r d ssm sdi label hs hd hl]
  rw [signedField19_toU32 (quantizedBnr r d sdi) _ lo hi (by omega)]

/-- In no-SDI mode a quantized value that fits 21 signed bits is decoded as
`range * q / 2^20`. -/
theorem roundtrip_nosdi_fit (r d : ℚ) (ssm sdi label : Nat) (hs : ssm < 4) (hd : 4 ≤ sdi)
    (hl : label < 256) (lo : -1048576 ≤ quantizedBnr r d sdi)
    (hi : quantizedBnr r d sdi < 1048576) :
    (SplitArincWord (BuildArincWord r d ssm sdi label) true r).1
      = r * ((quantizedBnr r d sdi : Int) : ℚ) / 1048576 := by
  rw [split_data_nosdi, build_nosdi_eq r d ssm sdi label hs hd hl]
  rw [signedField21_toU32 (quantizedBnr r d sdi) _ lo hi (by omega)]

/-- The scaled value in SDI mode. -/
theorem scaledBnr_sdi (r d : ℚ) (sdi : Nat) (hd : sdi < 4) :
    scaledBnr r d sdi = d / r * 262144 := by
  have h3 : ¬ (sdi > 3) := by omega
  simp [scaledBnr, h3]

/-- The scaled value in no-SDI mode. -/
theorem scaledBnr_nosdi (r d : ℚ) (sdi : Nat) (hd : 4 ≤ sdi) :
    scaledBnr r d sdi = d / r * 1048576 := by
  have h3 : sdi > 3 := by omega
  simp only [scaledBnr, h3, decide_True, if_true]
  ring

/-- Decoding error of a value `r * q / s` when `q` is the rounding of `d / r * s`. -/
theorem decode_err (r d s : ℚ) (hr : 0 < r) (hs : 0 < s) :
    |r * ((roundLong (d / r * s) : Int) : ℚ) / s - d| ≤ r / (2 * s) := by
  have h := roundLong_err (d / r * s)
  generalize ((roundLong (d / r * s) : Int) : ℚ) = q at h ⊢
  have hr0 : r ≠ 0 := ne_of_gt hr
  have hs0 : s ≠ 0 := ne_of_gt hs
  have e : r * q / s - d = r / s * (q - d / r * s) := by
    field_simp
    ring
  have e2 : r / (2 * s) = r / s * (1 / 2) := by
    rw [mul_comm 2 s, ← div_div]
    ring
  rw [e, e2, abs_mul, abs_of_pos (div_pos hr hs)]
  exact mul_le_mul_of_nonneg_left h (le_of_lt (div_pos hr hs))

/-- Round trip in SDI mode on the domain `-r ≤ d < r * (1 - 2^-19)`: the quantized
value fits the 19-bit field, is decoded as `r * q / 2^18`, within `r / 2^19` of `d`. -/
theorem bnr_roundtrip_sdi (r d : ℚ) (ssm sdi label : Nat) (hr : 0 < r) (lo : -r ≤ d)
    (hi : d < r * (1 - 1 / 2 ^ 19)) (hs : ssm < 4) (hd : sdi < 4) (hl : label < 256) :
    (-262144 ≤ quantizedBnr r d sdi ∧ quantizedBnr r d sdi < 262144) ∧
    (SplitArincWord (BuildArincWord r d ssm sdi label) false r).1
      = r * ((quantizedBnr r d sdi : Int) : ℚ) / 262144 ∧
    |(SplitArincWord (BuildArincWord r d ssm sdi label) false r).1 - d| ≤ r / 2 ^ 19 := by
  have hx : scaledBnr r d sdi = d / r * 262144 := scaledBnr_sdi r d sdi hd
  have h1 : -1 ≤ d / r := by
    rw [le_div_iff₀ hr]
    linarith
  have h2 : d / r < 1 - 1 / 2 ^ 19 := by
    rw [div_lt_iff₀ hr]
    linarith
  have qlo : -262144 ≤ quantizedBnr r d sdi := by
    unfold quantizedBnr
    apply roundLong_ge
    rw [hx]
    push_cast
    linarith
  have qhi : quantizedBnr r d sdi < 262144 := by
    unfold quantizedBnr
    apply roundLong_lt
    rw [hx]
    push_cast
    norm_num at h2 ⊢
    linarith
  have e := roundtrip_sdi_fit r d ssm sdi label hs hd hl qlo qhi
  refine ⟨⟨qlo, qhi⟩, e, ?_⟩
  rw [e]
  unfold quantizedBnr
  rw [hx]
  have h := decode_err r d 262144 hr (by norm_num)
  have e2 : r / (2 * 262144) = r / 2 ^ 19 := by norm_num
  rw [e2] at h
  exact h

/-- Round trip in no-SDI mode on the domain `-r ≤ d < r * (1 - 2^-21)`: the quantized
value fits the 21-bit field, is decoded as `r * q / 2^20`, within `r / 2^21` of `d`. -/
theorem bnr_roundtrip_nosdi (r d : ℚ) (ssm sdi label : Nat) (hr : 0 < r) (lo : -r ≤ d)
    (hi : d < r * (1 - 1 / 2 ^ 21)) (hs : ssm < 4) (hd : 4 ≤ sdi) (hl : label < 256) :
    (-1048576 ≤ quantizedBnr r d sdi ∧ quantizedBnr r d sdi < 1048576) ∧
    (SplitArincWord (BuildArincWord r d ssm sdi label) true r).1
      = r * ((quantizedBnr r d sdi : Int) : ℚ) / 1048576 ∧
    |(SplitArincWord (BuildArincWord r d ssm sdi label) true r).1 - d| ≤ r / 2 ^ 21 := by
  have hx : scaledBnr r d sdi = d / r * 1048576 := scaledBnr_nosdi r d sdi hd
  have h1 : -1 ≤ d / r := by
    rw [le_div_iff₀ hr]
    linarith
  have h2 : d / r < 1 - 1 / 2 ^ 21 := by
    rw [div_lt_iff₀ hr]
    linarith
  have qlo : -1048576 ≤ quantizedBnr r d sdi := by
    unfold quantizedBnr
    apply roundLong_ge
    rw [hx]
    push_cast
    linarith
  have qhi : quantizedBnr r d sdi < 1048576 := by
    unfold quantizedBnr
    apply roundLong_lt
    rw [hx]
    push_cast
    norm_num at h2 ⊢
    linarith
  have e := roundtrip_nosdi_fit r d ssm sdi label hs hd hl qlo qhi
  refine ⟨⟨qlo, qhi⟩, e, ?_⟩
  rw [e]
  unfold quantizedBnr
  rw [hx]
  have h := decode_err r d 1048576 hr (by norm_num)
  have e2 : r / (2 * 1048576) = r / 2 ^ 21 := by norm_num
  rw [e2] at h
  exact h

theorem toU32_262144 : toU32 262144 = 262144 := by decide

theorem toU32_1048576 : toU32 1048576 = 1048576 := by decide

/-- Just below full scale the SDI-mode quantized value is `2^18`. -/
theorem quantized_below_full_scale_sdi :
    quantizedBnr 1 (16777215 / 16777216) 0 = 262144 := by
  norm_num [quantizedBnr, scaledBnr, roundLong, ftol]

/-- Just below full scale the no-SDI quantized value is `2^20`. -/
theorem quantized_below_full_scale_nosdi :
    quantizedBnr 1 (16777215 / 16777216) NOSDI = 1048576 := by
  norm_num [quantizedBnr, scaledBnr, roundLong, ftol, NOSDI]

/-- A quantized value `2^18` is decoded as minus the range in SDI mode. -/
theorem decode_wrapped_sdi (r d : ℚ) (h : quantizedBnr r d 0 = 262144) :
    (SplitArincWord (BuildArincWord r d 0 0 0) false r).1 = -r := by
  rw [split_data_sdi, build_sdi_eq _ _ _ _ _ (by decide) (by decide) (by decide), h,
    toU32_262144]
  norm_num [signedField]
  ring

/-- A quantized value `2^20` is decoded as minus the range in no-SDI mode. -/
theorem decode_wrapped_nosdi (r d : ℚ) (h : quantizedBnr r d NOSDI = 1048576) :
    (SplitArincWord (BuildArincWord r d 0 NOSDI 0) true r).1 = -r := by
  rw [split_data_nosdi, build_nosdi_eq _ _ _ _ _ (by decide) (by decide) (by decide), h,
    toU32_1048576]
  norm_num [signedField]
  ring

/-! ## Binary32 rounding lemmas -/

/-- The binary logarithm of a positive rational inside the binade of exponent `e`. -/
theorem int_log_two_eq (x : ℚ) (e : Int) (h1 : (2 : ℚ) ^ e ≤ x)
    (h2 : x < (2 : ℚ) ^ (e + 1)) : Int.log 2 x = e := by
  have hx : 0 < x := lt_of_lt_of_le (zpow_pos (by norm_num) e) h1
  have a : e ≤ Int.log 2 x := by
    rw [← Int.zpow_le_iff_le_log (by norm_num) hx]
    exact_mod_cast h1
  have b : Int.log 2 x < e + 1 := by
    rw [← Int.lt_zpow_iff_log_lt (by norm_num) hx]
    exact_mod_cast h2
  omega

/-- The binary32 exponent of a value inside a normal binade. -/
theorem f32Exp_eq (x : ℚ) (e : Int) (he : -126 ≤ e) (h1 : (2 : ℚ) ^ e ≤ |x|)
    (h2 : |x| < (2 : ℚ) ^ (e + 1)) : f32Exp x = e := by
  unfold f32Exp
  rw [int_log_two_eq |x| e h1 h2]
  exact max_eq_left he

/-- An integer is its own rounding. -/
theorem roundHalfEven_intCast (n : Int) : roundHalfEven (n : ℚ) = n := by
  simp [roundHalfEven]

/-- Evaluation of `roundF32` inside a normal binade. -/
theorem roundF32_eval (x : ℚ) (e n : Int) (he : -126 ≤ e) (h1 : (2 : ℚ) ^ e ≤ |x|)
    (h2 : |x| < (2 : ℚ) ^ (e + 1)) (hn : roundHalfEven (x / 2 ^ (e - 23)) = n) :
    roundF32 x = (n : ℚ) * 2 ^ (e - 23) := by
  unfold roundF32
  rw [f32Exp_eq x e he h1 h2, hn]

/-- A multiple of `2^(e-23)` inside the binade of exponent `e` is a binary32 value. -/
theorem roundF32_exact (x : ℚ) (e n : Int) (he : -126 ≤ e) (h1 : (2 : ℚ) ^ e ≤ |x|)
    (h2 : |x| < (2 : ℚ) ^ (e + 1)) (hx : x = (n : ℚ) * 2 ^ (e - 23)) :
    roundF32 x = x := by
  have h2pos : (2 : ℚ) ^ (e - 23) ≠ 0 := zpow_ne_zero _ (by norm_num)
  have hq : x / 2 ^ (e - 23) = (n : ℚ) := by
    rw [hx]
    field_simp
  rw [roundF32_eval x e n he h1 h2 (by rw [hq]; exact roundHalfEven_intCast n), ← hx]

/-- Zero is a binary32 value. -/
theorem roundF32_zero : roundF32 0 = 0 := by
  simp [roundF32, roundHalfEven]

/-! ## The binary32 codec in arithmetic form -/

/-- Data decoded by `SplitArincWordF32` in SDI mode, for any word. -/
theorem splitF32_data_sdi (aw : Nat) (range : ℚ) :
    (SplitArincWordF32 aw false range).1
      = roundF32 (roundF32 (range / 2147483648)
          * roundF32 (((signedField 19 (aw / 1024) * 8192 : Int) : ℚ))) := by
  simp only [SplitArincWordF32, Bool.false_eq_true, if_false, shl3_field19]

/-- Data decoded by `SplitArincWordF32` in no-SDI mode, for any word. -/
theorem splitF32_data_nosdi (aw : Nat) (range : ℚ) :
    (SplitArincWordF32 aw true range).1
      = roundF32 (roundF32 (range / 2147483648)
          * roundF32 (((signedField 21 (aw / 256) * 2048 : Int) : ℚ))) := by
  simp only [SplitArincWordF32, if_true, shl3_field21]

/-- The SSM and SDI outputs do not involve floating point. -/
theorem splitF32_ssm_sdi (aw : Nat) (noSdi : Bool) (range : ℚ) :
    (SplitArincWordF32 aw noSdi range).2 = (SplitArincWord aw noSdi range).2 := rfl

/-! ## Binary32 evaluations -/

/-- The pattern of `0.1f`. -/
theorem f32Value_tenth : f32Value 0x3DCCCCCD = 13421773 / 134217728 := by
  norm_num [f32Value]

/-- The pattern `0x3599999A`. -/
theorem f32Value_3599999A : f32Value 0x3599999A = 5033165 / 4398046511104 := by
  norm_num [f32Value]

/-- The values `0.1f / 2^31` and `-0.1f` are binary32 values. -/
theorem f32_exact_tenth :
    roundF32 ((13421773 / 134217728 : ℚ) / 2147483648) = 13421773 / 134217728 / 2147483648 ∧
    roundF32 (-(13421773 / 134217728)) = -(13421773 / 134217728) := by
  constructor
  · rw [roundF32_exact _ (-35) 13421773 (by norm_num) (by norm_num [abs_of_pos])
      (by norm_num [abs_of_pos]) (by norm_num)]
  · rw [roundF32_exact _ (-4) (-13421773) (by norm_num) (by norm_num [abs_of_neg])
      (by norm_num [abs_of_neg]) (by norm_num)]

/-- In binary32 the word `0xC00` is decoded with `range = 0.1f` as the pattern
`0x3599999A`. -/
theorem splitF32_C00_tenth :
    (SplitArincWordF32 0xC00 false (13421773 / 134217728)).1 = 5033165 / 4398046511104 := by
  have p19 : (2 : Nat) ^ 19 = 524288 := by norm_num
  have p18 : (2 : Nat) ^ (19 - 1) = 262144 := by norm_num
  have f : signedField 19 (0xC00 / 1024) = 3 := by
    simp only [signedField, p19, p18]
    norm_num
  have e : (((3 * 8192 : Int)) : ℚ) = 24576 := by norm_num
  have h3 : roundF32 (24576 : ℚ) = 24576 := by
    rw [roundF32_exact _ 14 12582912 (by norm_num) (by norm_num) (by norm_num)
      (by norm_num)]
  have h4 : roundF32 ((13421773 / 134217728 : ℚ) / 2147483648 * 24576)
      = 5033165 / 4398046511104 := by
    rw [roundF32_eval _ (-20) 10066330 (by norm_num) (by norm_num [abs_of_pos])
      (by norm_num [abs_of_pos]) (by norm_num [roundHalfEven])]
    norm_num
  rw [splitF32_data_sdi, f, e, h3, f32_exact_tenth.1, h4]


/-! ## Values that binary32 represents exactly -/

/-- A multiple `m * 2^k` of a power of two not below `2^-149`, of magnitude below
`2^(k+24)`, is a binary32 value. -/
theorem roundF32_of_grid (x : ℚ) (m k : Int) (hx : x = (m : ℚ) * 2 ^ k) (hk : -149 ≤ k)
    (hm : |x| < (2 : ℚ) ^ (k + 24)) : roundF32 x = x := by
  by_cases h0 : x = 0
  · rw [h0, roundF32_zero]
  · have hpos : 0 < |x| := abs_pos.mpr h0
    have hlog : Int.log 2 |x| < k + 24 := by
      rw [← Int.lt_zpow_iff_log_lt (by norm_num) hpos]
      exact_mod_cast hm
    have hE : f32Exp x - 23 ≤ k := by
      have : f32Exp x ≤ k + 23 := max_le (by omega) (by omega)
      omega
    unfold roundF32
    generalize f32Exp x = E at hE ⊢
    obtain ⟨j, hj⟩ := Int.eq_ofNat_of_zero_le (sub_nonneg.mpr hE)
    have h2 : (2 : ℚ) ^ (E - 23) ≠ 0 := zpow_ne_zero _ (by norm_num)
    have hk2 : (2 : ℚ) ^ k = 2 ^ (j : Int) * 2 ^ (E - 23) := by
      rw [← zpow_add₀ (by norm_num), ← hj]
      congr 1
      ring
    have hq : x / 2 ^ (E - 23) = ((m * 2 ^ j : Int) : ℚ) := by
      rw [hx, hk2]
      push_cast
      field_simp
      ring
    rw [hq, roundHalfEven_intCast, hx, hk2]
    push_cast
    rw [zpow_natCast]
    ring

/-- A binary32 value is a multiple of the unit of its binade and lies below the next
binade. -/
theorem f32_grid_of_fixed (x : ℚ) (h : roundF32 x = x) :
    (∃ m : Int, x = (m : ℚ) * 2 ^ (f32Exp x - 23)) ∧ |x| < (2 : ℚ) ^ (f32Exp x + 1) := by
  constructor
  · exact ⟨roundHalfEven (x / 2 ^ (f32Exp x - 23)), h.symm⟩
  · have h1 : |x| < (2 : ℚ) ^ (Int.log 2 |x| + 1) := by
      exact_mod_cast Int.lt_zpow_succ_log_self (by norm_num : 1 < 2) |x|
    have h2 : (2 : ℚ) ^ (Int.log 2 |x| + 1) ≤ 2 ^ (f32Exp x + 1) := by
      apply zpow_le_zpow_right₀ (by norm_num)
      have : Int.log 2 |x| ≤ f32Exp x := le_max_left _ _
      omega
    exact lt_of_lt_of_le h1 h2

/-- The quotient by `2^31` of a binary32 value of magnitude at least `2^-95` is a
binary32 value. -/
theorem roundF32_div_two_pow_31 (r : ℚ) (hr : roundF32 r = r)
    (hb : (2 : ℚ) ^ (-95 : Int) ≤ |r|) : roundF32 (r / 2147483648) = r / 2147483648 := by
  obtain ⟨⟨m, hm⟩, hlt⟩ := f32_grid_of_fixed r hr
  have hpos : 0 < |r| := lt_of_lt_of_le (zpow_pos (by norm_num) _) hb
  have hlog : -95 ≤ Int.log 2 |r| := by
    rw [← Int.zpow_le_iff_le_log (by norm_num) hpos]
    exact_mod_cast hb
  have hE : -95 ≤ f32Exp r := le_trans hlog (le_max_left _ _)
  have e31 : (2147483648 : ℚ) = 2 ^ (31 : Int) := by norm_num
  apply roundF32_of_grid (r / 2147483648) m (f32Exp r - 23 - 31)
  · rw [e31, zpow_sub₀ (by norm_num), ← mul_div_assoc, ← hm]
  · omega
  · rw [abs_div, e31, abs_of_pos (zpow_pos (by norm_num : (0 : ℚ) < 2) 31),
      div_lt_iff₀ (zpow_pos (by norm_num) 31), ← zpow_add₀ (by norm_num)]
    have : f32Exp r - 23 - 31 + 24 + 31 = f32Exp r + 1 := by ring
    rw [this]
    exact hlt

/-- The sign extended field is within the range of the signed field. -/
theorem signedField_bounds (x : Nat) :
    (-262144 ≤ signedField 19 x ∧ signedField 19 x < 262144) ∧
    (-1048576 ≤ signedField 21 x ∧ signedField 21 x < 1048576) := by
  have p19 : (2 : Nat) ^ 19 = 524288 := by norm_num
  have p18 : (2 : Nat) ^ (19 - 1) = 262144 := by norm_num
  have q19 : (2 : Int) ^ 19 = 524288 := by norm_num
  have p21 : (2 : Nat) ^ 21 = 2097152 := by norm_num
  have p20 : (2 : Nat) ^ (21 - 1) = 1048576 := by norm_num
  have q21 : (2 : Int) ^ 21 = 2097152 := by norm_num
  simp only [signedField, p19, p18, q19, p21, p20, q21]
  refine ⟨⟨?_, ?_⟩, ⟨?_, ?_⟩⟩ <;> split_ifs <;> omega

/-- An integer of magnitude at most `2^18` times `2^13` is a binary32 value. -/
theorem roundF32_shifted_field19 (S : Int) (lo : -262144 ≤ S) (hi : S < 262144) :
    roundF32 (((S * 8192 : Int)) : ℚ) = ((S * 8192 : Int) : ℚ) := by
  apply roundF32_of_grid _ S 13
  · push_cast
    norm_num
  · norm_num
  · have h1 : |((S * 8192 : Int) : ℚ)| ≤ 2147483648 := by
      rw [abs_le]
      constructor
      · have : (-2147483648 : Int) ≤ S * 8192 := by omega
        exact_mod_cast this
      · have : S * 8192 ≤ (2147483648 : Int) := by omega
        exact_mod_cast this
    exact lt_of_le_of_lt h1 (by norm_num)

/-- An integer of magnitude at most `2^20` times `2^11` is a binary32 value. -/
theorem roundF32_shifted_field21 (S : Int) (lo : -1048576 ≤ S) (hi : S < 1048576) :
    roundF32 (((S * 2048 : Int)) : ℚ) = ((S * 2048 : Int) : ℚ) := by
  apply roundF32_of_grid _ S 11
  · push_cast
    norm_num
  · norm_num
  · have h1 : |((S * 2048 : Int) : ℚ)| ≤ 2147483648 := by
      rw [abs_le]
      constructor
      · have : (-2147483648 : Int) ≤ S * 2048 := by omega
        exact_mod_cast this
      · have : S * 2048 ≤ (2147483648 : Int) := by omega
        exact_mod_cast this
    exact lt_of_le_of_lt h1 (by norm_num)

/-- In binary32, for a binary32 range that is zero or of magnitude at least `2^-95`, the
data decoded by `SplitArincWordF32` is the rounding of `range * S / 2^18` (SDI mode),
resp. `range * S / 2^20` (no-SDI mode). -/
theorem splitF32_data_rounded (aw : Nat) (range : ℚ) (hr : roundF32 range = range)
    (hb : range = 0 ∨ (2 : ℚ) ^ (-95 : Int) ≤ |range|) :
    (SplitArincWordF32 aw false range).1
      = roundF32 (range * ((signedField 19 (aw / 1024) : Int) : ℚ) / 262144) ∧
    (SplitArincWordF32 aw true range).1
      = roundF32 (range * ((signedField 21 (aw / 256) : Int) : ℚ) / 1048576) := by
  have hq : roundF32 (range / 2147483648) = range / 2147483648 := by
    rcases hb with h0 | hb
    · rw [h0]
      norm_num
      exact roundF32_zero
    · exact roundF32_div_two_pow_31 range hr hb
  have b := signedField_bounds
  constructor
  · rw [splitF32_data_sdi, hq, roundF32_shifted_field19 _ (b (aw / 1024)).1.1 (b (aw / 1024)).1.2]
    congr 1
    push_cast
    ring
  · rw [splitF32_data_nosdi, hq,
      roundF32_shifted_field21 _ (b (aw / 256)).2.1 (b (aw / 256)).2.2]
    congr 1
    push_cast
    ring

/-! ## Binary32 rounding error -/

/-- C1 (as stated, refuted): with `range = 1`, `data = 1 - 2^-24` (so `|data| < range`),
`ssm = 0`, `sdi = 0`, `label = 0`, the quantized value is `2^18`, which wraps in the
19-bit field: the SDI-mode round trip returns `-1`, farther than `range / 2^19`
from `data`. -/
theorem roundtrip_sdi_wraps_below_full_scale :
    (0 : ℚ) < 1 ∧ |(16777215 / 16777216 : ℚ)| < 1 ∧
    (SplitArincWord (BuildArincWord 1 (16777215 / 16777216) 0 0 0) false 1).1 = -1 ∧
    ¬ (|(SplitArincWord (BuildArincWord 1 (16777215 / 16777216) 0 0 0) false 1).1
        - 16777215 / 16777216| ≤ (1 : ℚ) / 2 ^ 19) := by
  have e := decode_wrapped_sdi 1 (16777215 / 16777216) quantized_below_full_scale_sdi
  refine ⟨by norm_num, by rw [abs_lt]; constructor <;> norm_num, e, ?_⟩
  rw [e]
  norm_num [abs_le]

/-- C1 (amended): for every `range > 0`, every `data` with `|data| < range` and
`data < range * (1 - 2^-19)`, every `ssm` in 0..3, `sdi` in 0..3 and `label` in 0..255,
the data decoded by `SplitArincWord` (with `noSdi = false`) from the word of
`BuildArincWord` is within `range / 2^19` of `data`. -/
theorem roundtrip_sdi_error (r d : ℚ) (ssm sdi label : Nat) (hr : 0 < r) (hd : |d| < r)
    (hd2 : d < r * (1 - 1 / 2 ^ 19)) (hs : ssm < 4) (hsdi : sdi < 4) (hl : label < 256) :
    |(SplitArincWord (BuildArincWord r d ssm sdi label) false r).1 - d| ≤ r / 2 ^ 19 :=
  (bnr_roundtrip_sdi r d ssm sdi label hr (le_of_lt (abs_lt.mp hd).1) hd2 hs hsdi hl).2.2

/-- C1 witness: `range = 4096`, `data = 2048`, `ssm = 1`, `sdi = 2`, `label = 128`. -/
theorem roundtrip_sdi_error_witness :
    (0 : ℚ) < 4096 ∧ |(2048 : ℚ)| < 4096 ∧ (2048 : ℚ) < 4096 * (1 - 1 / 2 ^ 19) ∧
    |(SplitArincWord (BuildArincWord 4096 2048 1 2 128) false 4096).1 - 2048|
      ≤ (4096 : ℚ) / 2 ^ 19 :=
  ⟨by norm_num, by rw [abs_lt]; constructor <;> norm_num, by norm_num,
    roundtrip_sdi_error 4096 2048 1 2 128 (by norm_num)
      (by rw [abs_lt]; constructor <;> norm_num) (by norm_num) (by decide) (by decide)
      (by decide)⟩

/-- C2 (as stated, refuted): with `range = 1`, `data = 1 - 2^-24` (so `|data| < range`),
`ssm = 0`, `sdi = NOSDI`, `label = 0`, the quantized value is `2^20`, which wraps in the
21-bit field: the no-SDI round trip returns `-1`, farther than `range / 2^21`
from `data`. -/
theorem roundtrip_nosdi_wraps_below_full_scale :
    (0 : ℚ) < 1 ∧ |(16777215 / 16777216 : ℚ)| < 1 ∧
    (SplitArincWord (BuildArincWord 1 (16777215 / 16777216) 0 NOSDI 0) true 1).1 = -1 ∧
    ¬ (|(SplitArincWord (BuildArincWord 1 (16777215 / 16777216) 0 NOSDI 0) true 1).1
        - 16777215 / 16777216| ≤ (1 : ℚ) / 2 ^ 21) := by
  have e := decode_wrapped_nosdi 1 (16777215 / 16777216) quantized_below_full_scale_nosdi
  refine ⟨by norm_num, by rw [abs_lt]; constructor <;> norm_num, e, ?_⟩
  rw [e]
  norm_num [abs_le]

/-- C2 (amended): for every `range > 0`, every `data` with `|data| < range` and
`data < range * (1 - 2^-21)`, every `ssm` in 0..3 and `label` in 0..255, the data
decoded by `SplitArincWord` (with `noSdi = true`) from the word of `BuildArincWord`
called with `sdi = NOSDI` is within `range / 2^21` of `data`. -/
theorem roundtrip_nosdi_error (r d : ℚ) (ssm label : Nat) (hr : 0 < r) (hd : |d| < r)
    (hd2 : d < r * (1 - 1 / 2 ^ 21)) (hs : ssm < 4) (hl : label < 256) :
    |(SplitArincWord (BuildArincWord r d ssm NOSDI label) true r).1 - d| ≤ r / 2 ^ 21 :=
  (bnr_roundtrip_nosdi r d ssm NOSDI label hr (le_of_lt (abs_lt.mp hd).1) hd2 hs
    (by decide) hl).2.2

/-- C2 witness: `range = 4096`, `data = -1000`, `ssm = 3`, `label = 255`. -/
theorem roundtrip_nosdi_error_witness :
    (0 : ℚ) < 4096 ∧ |(-1000 : ℚ)| < 4096 ∧ (-1000 : ℚ) < 4096 * (1 - 1 / 2 ^ 21) ∧
    |(SplitArincWord (BuildArincWord 4096 (-1000) 3 NOSDI 255) true 4096).1 - (-1000)|
      ≤ (4096 : ℚ) / 2 ^ 21 :=
  ⟨by norm_num, by rw [abs_lt]; constructor <;> norm_num, by norm_num,
    roundtrip_nosdi_error 4096 (-1000) 3 255 (by norm_num)
      (by rw [abs_lt]; constructor <;> norm_num) (by norm_num) (by decide) (by decide)⟩

/-- C3: for every range, every data, every `ssm` in 0..3 and `label` in 0..255:
with `sdi` in 0..3 and `noSdi = false`, `SplitArincWord` of the word of
`BuildArincWord` returns exactly that `ssm` and that `sdi`; with `sdi ≥ 4` and
`noSdi = true` it returns exactly that `ssm` and `sdi = 0`. -/
theorem ssm_sdi_recovered (r d : ℚ) (ssm sdi label : Nat) (hs : ssm < 4)
    (hl : label < 256) :
    (sdi < 4 →
      (SplitArincWord (BuildArincWord r d ssm sdi label) false r).2.1 = ssm ∧
      (SplitArincWord (BuildArincWord r d ssm sdi label) false r).2.2 = sdi) ∧
    (4 ≤ sdi →
      (SplitArincWord (BuildArincWord r d ssm sdi label) true r).2.1 = ssm ∧
      (SplitArincWord (BuildArincWord r d ssm sdi label) true r).2.2 = 0) := by
  constructor
  · intro h
    rw [split_ssm, split_sdi, build_sdi_eq r d ssm sdi label hs h hl]
    constructor <;> omega
  · intro h
    rw [split_ssm, split_sdi_nosdi, build_nosdi_eq r d ssm sdi label hs h hl]
    constructor
    · omega
    · rfl

/-- C3 witness: an overflowing payload (`data = 5 * range`) with `ssm = 1`,
`label = 128`, once with `sdi = 2` and once with `sdi = NOSDI`. -/
theorem ssm_sdi_recovered_witness :
    ((SplitArincWord (BuildArincWord 1 5 1 2 128) false 1).2.1 = 1 ∧
      (SplitArincWord (BuildArincWord 1 5 1 2 128) false 1).2.2 = 2) ∧
    ((SplitArincWord (BuildArincWord 1 5 1 NOSDI 128) true 1).2.1 = 1 ∧
      (SplitArincWord (BuildArincWord 1 5 1 NOSDI 128) true 1).2.2 = 0) :=
  ⟨(ssm_sdi_recovered 1 5 1 2 128 (by decide) (by decide)).1 (by decide),
    (ssm_sdi_recovered 1 5 1 NOSDI 128 (by decide) (by decide)).2 (by decide)⟩

/-- The quantized value does not depend on which no-SDI sentinel is passed. -/
theorem quantizedBnr_nosdi_indep (r d : ℚ) (sdi : Nat) (hd : 4 ≤ sdi) :
    quantizedBnr r d sdi = quantizedBnr r d NOSDI := by
  unfold quantizedBnr
  rw [scaledBnr_nosdi r d sdi hd, scaledBnr_nosdi r d NOSDI (by decide)]

/-- The low bits of the 32-bit pattern of `q` are `q` modulo the field size. -/
theorem toU32_mod (q : Int) :
    toU32 q % 524288 = (q % 524288).toNat ∧ toU32 q % 2097152 = (q % 2097152).toNat := by
  unfold toU32
  constructor <;> omega

/-! ## Bit-exact packing -/

/-- C4: writing `q` for the rounded quantized integer, for every `ssm` in 0..3 and
`label` in 0..255: if `sdi` is in 0..3 the word of `BuildArincWord` equals
`ssm*2^29 + (q mod 2^19)*2^10 + sdi*2^8 + label`, with label in bits 0-7, SDI in bits
8-9, data in bits 10-28, SSM in bits 29-30 and nothing above; if `sdi ≥ 4` the word
equals `ssm*2^29 + (q mod 2^21)*2^8 + label`, with label in bits 0-7, data in bits
8-28, SSM in bits 29-30 and nothing above, and is the word built with `NOSDI`. -/
theorem build_bit_exact (r d : ℚ) (ssm sdi label : Nat) (hs : ssm < 4)
    (hl : label < 256) :
    (sdi < 4 →
      BuildArincWord r d ssm sdi label
        = ssm * 2 ^ 29 + (quantizedBnr r d sdi % 2 ^ 19).toNat * 2 ^ 10 + sdi * 2 ^ 8
          + label ∧
      BuildArincWord r d ssm sdi label % 2 ^ 8 = label ∧
      BuildArincWord r d ssm sdi label / 2 ^ 8 % 2 ^ 2 = sdi ∧
      BuildArincWord r d ssm sdi label / 2 ^ 10 % 2 ^ 19
        = (quantizedBnr r d sdi % 2 ^ 19).toNat ∧
      BuildArincWord r d ssm sdi label / 2 ^ 29 = ssm) ∧
    (4 ≤ sdi →
      BuildArincWord r d ssm sdi label
        = ssm * 2 ^ 29 + (quantizedBnr r d sdi % 2 ^ 21).toNat * 2 ^ 8 + label ∧
      BuildArincWord r d ssm sdi label % 2 ^ 8 = label ∧
      BuildArincWord r d ssm sdi label / 2 ^ 8 % 2 ^ 21
        = (quantizedBnr r d sdi % 2 ^ 21).toNat ∧
      BuildArincWord r d ssm sdi label / 2 ^ 29 = ssm ∧
      quantizedBnr r d sdi = quantizedBnr r d NOSDI ∧
      BuildArincWord r d ssm sdi label = BuildArincWord r d ssm NOSDI label) := by
  have hm := toU32_mod (quantizedBnr r d sdi)
  constructor
  · intro h
    have e := build_sdi_eq r d ssm sdi label hs h hl
    rw [hm.1] at e
    norm_num
    refine ⟨e, ?_, ?_, ?_, ?_⟩ <;> omega
  · intro h
    have e := build_nosdi_eq r d ssm sdi label hs h hl
    have e4 := build_nosdi_eq r d ssm NOSDI label hs (by decide) hl
    have hq := quantizedBnr_nosdi_indep r d sdi h
    rw [hm.2] at e
    norm_num
    refine ⟨e, ?_, ?_, ?_, hq, ?_⟩
    · omega
    · omega
    · omega
    · rw [e4, ← hq, hm.2]
      exact e

/-- C4 witness: `range = 4096`, `data = -1000`, `ssm = 2`, `label = 200`, once with
`sdi = 3` and once with the sentinel `sdi = 7`. -/
theorem build_bit_exact_witness :
    (BuildArincWord 4096 (-1000) 2 3 200
        = 2 * 2 ^ 29 + (quantizedBnr 4096 (-1000) 3 % 2 ^ 19).toNat * 2 ^ 10 + 3 * 2 ^ 8
          + 200 ∧
      BuildArincWord 4096 (-1000) 2 3 200 % 2 ^ 8 = 200 ∧
      BuildArincWord 4096 (-1000) 2 3 200 / 2 ^ 8 % 2 ^ 2 = 3 ∧
      BuildArincWord 4096 (-1000) 2 3 200 / 2 ^ 10 % 2 ^ 19
        = (quantizedBnr 4096 (-1000) 3 % 2 ^ 19).toNat ∧
      BuildArincWord 4096 (-1000) 2 3 200 / 2 ^ 29 = 2) ∧
    (BuildArincWord 4096 (-1000) 2 7 200
        = 2 * 2 ^ 29 + (quantizedBnr 4096 (-1000) 7 % 2 ^ 21).toNat * 2 ^ 8 + 200 ∧
      BuildArincWord 4096 (-1000) 2 7 200 % 2 ^ 8 = 200 ∧
      BuildArincWord 4096 (-1000) 2 7 200 / 2 ^ 8 % 2 ^ 21
        = (quantizedBnr 4096 (-1000) 7 % 2 ^ 21).toNat ∧
      BuildArincWord 4096 (-1000) 2 7 200 / 2 ^ 29 = 2 ∧
      quantizedBnr 4096 (-1000) 7 = quantizedBnr 4096 (-1000) NOSDI ∧
      BuildArincWord 4096 (-1000) 2 7 200 = BuildArincWord 4096 (-1000) 2 NOSDI 200) :=
  ⟨(build_bit_exact 4096 (-1000) 2 3 200 (by decide) (by decide)).1 (by decide),
    (build_bit_exact 4096 (-1000) 2 7 200 (by decide) (by decide)).2 (by decide)⟩

/-- C5: `BuildArincWord(4096.0, 2048.0, 1, NOSDI, 128)` is `0x28000080`: the quantized
value is `2^19`, shifted left by 8 it is `0x08000000`, SSM 1 at bit 29 is `0x20000000`,
the label is `0x80`; `SplitArincWord` of that word with `noSdi = true` and range
4096.0 returns data 2048.0, ssm 1, sdi 0. -/
theorem regression_vector :
    quantizedBnr 4096 2048 NOSDI = 2 ^ 19 ∧
    ((toU32 (2 ^ 19) <<< 8) % 4294967296) &&& 0x1fffffff = 0x08000000 ∧
    ((1 <<< 29) % 4294967296 = 0x20000000) ∧
    BuildArincWord 4096 2048 1 NOSDI 128 = 0x28000080 ∧
    SplitArincWord 0x28000080 true 4096 = (2048, 1, 0) := by
  have hq : quantizedBnr 4096 2048 NOSDI = 524288 := by
    norm_num [quantizedBnr, scaledBnr, roundLong, ftol, NOSDI]
  have hu : toU32 524288 = 524288 := by decide
  refine ⟨by rw [hq]; norm_num, by decide, by decide, ?_, ?_⟩
  · rw [build_nosdi_eq _ _ _ _ _ (by decide) (by decide) (by decide), hq, hu]
  · refine Prod.ext ?_ (Prod.ext ?_ ?_)
    · rw [split_data_nosdi]
      norm_num [signedField]
    · rw [split_ssm]
    · rw [split_sdi_nosdi]

/-! ## Range of the quantized value -/

theorem and_fffffe00 (x : Nat) : x &&& 0xfffffe00 = x % 4294967296 / 512 * 512 := by
  have h := and_mask_hi x 9 32 (by norm_num)
  norm_num at h
  exact h

/-- Bits of the mask `0xfffffe00`. -/
theorem testBit_fffffe00 (i : Nat) :
    Nat.testBit 0xfffffe00 i = (decide (9 ≤ i) && decide (i < 32)) := by
  have e : (0xfffffe00 : Nat) = (2 ^ 23 - 1) <<< 9 := by decide
  rw [e, Nat.testBit_shiftLeft, Nat.testBit_two_pow_sub_one]
  by_cases h1 : 9 ≤ i
  · by_cases h2 : i < 32
    · have h3 : i - 9 < 23 := by omega
      simp [h1, h2, h3]
    · have h3 : ¬ (i - 9 < 23) := by omega
      simp [h1, h2, h3]
  · simp [h1]

/-- A 32-bit pattern has no bit set from position 32 on. -/
theorem testBit_u32_high (u i : Nat) (hu : u < 4294967296) (hi : 32 ≤ i) :
    u.testBit i = false := by
  apply Nat.testBit_lt_two_pow
  calc u < 2 ^ 32 := by norm_num; exact hu
    _ ≤ 2 ^ i := Nat.pow_le_pow_right (by norm_num) hi

/-- Arithmetic reading of the NaN test. -/
theorem isnanBits_iff (u : Nat) :
    isnanBits u = true ↔ u / 8388608 % 256 = 255 ∧ u % 8388608 ≠ 0 := by
  simp [isnanBits, and_ff, and_7fffff, Nat.shiftRight_eq_div_pow]

/-- Word of the valid branch of `BuildArincWordFloat`, in arithmetic form. -/
theorem buildFloat_valid_eq (fmul : Nat → Nat → Nat) (data label u : Nat)
    (hu : fmul scaleFactorBits data % 4294967296 = u) (hl : label < 256) :
    BuildArincWordFloat fmul data true label = u / 512 * 256 + label := by
  have hlt : u < 4294967296 := by omega
  simp only [BuildArincWordFloat, if_true, hu]
  rw [and_7fffff00, Nat.shiftRight_eq_div_pow]
  rw [or_eq_add 8 (u / 512) label _ (by omega) (by omega)]
  omega

/-- Word of the invalid branch of `BuildArincWordFloat`, in arithmetic form. -/
theorem buildFloat_invalid_eq (fmul : Nat → Nat → Nat) (data label : Nat)
    (hl : label < 256) :
    BuildArincWordFloat fmul data false label = 0x3fe00000 + label := by
  simp only [BuildArincWordFloat, Bool.false_eq_true, if_false]
  exact or_eq_add 8 4186112 label _ (by norm_num) (by omega)

/-- Pattern reinterpreted by `SplitArincWordFloat`, in arithmetic form. -/
theorem floatPattern_eq (aw : Nat) :
    floatPattern aw = aw % 2147483648 / 256 * 512 := by
  unfold floatPattern
  rw [and_7fffff00, Nat.shiftLeft_eq]
  omega

/-- The pattern decoded from the word of the valid branch is `u` without its nine low
bits. -/
theorem floatPattern_build (fmul : Nat → Nat → Nat) (data label u : Nat)
    (hu : fmul scaleFactorBits data % 4294967296 = u) (hl : label < 256) :
    floatPattern (BuildArincWordFloat fmul data true label) = u &&& 0xfffffe00 := by
  have hlt : u < 4294967296 := by omega
  rw [floatPattern_eq, buildFloat_valid_eq fmul data label u hu hl, and_fffffe00]
  omega

/-- Bits of `u` kept and cleared by the mask `0xfffffe00`. -/
theorem testBit_and_fffffe00 (u : Nat) (hu : u < 4294967296) :
    (∀ i, 9 ≤ i → (u &&& 0xfffffe00).testBit i = u.testBit i) ∧
    (∀ i, i < 9 → (u &&& 0xfffffe00).testBit i = false) := by
  constructor
  · intro i h9
    rw [Nat.testBit_and, testBit_fffffe00]
    by_cases h32 : i < 32
    · simp [h9, h32]
    · rw [testBit_u32_high u i hu (by omega)]
      simp
  · intro i h9
    have h : ¬ (9 ≤ i) := by omega
    rw [Nat.testBit_and, testBit_fffffe00]
    simp [h]

/-! ## Float codec -/

/-- C7: for every data value and every `label` in 0..255,
`BuildArincWordFloat(data, false, label)` is `0x3FE00000 | label`, where `0x3FE00000` is
`0x7FC00000 >> 1`; `SplitArincWordFloat` of that word reinterprets the pattern
`0x7FC00000`, a NaN, and returns `vld = false` and `data = 0.0`, whatever the label
and the data passed in. -/
theorem invalid_float_payload (fmul : Nat → Nat → Nat) (data label : Nat)
    (hl : label < 256) :
    BuildArincWordFloat fmul data false label = 0x3FE00000 ||| label ∧
    0x7FC00000 >>> 1 = 0x3FE00000 ∧
    floatPattern (BuildArincWordFloat fmul data false label) = 0x7FC00000 ∧
    isnanBits 0x7FC00000 = true ∧
    SplitArincWordFloat (BuildArincWordFloat fmul data false label) = (0, false) := by
  have hp : floatPattern (BuildArincWordFloat fmul data false label) = 0x7FC00000 := by
    rw [floatPattern_eq, buildFloat_invalid_eq fmul data label hl]
    omega
  have hn : isnanBits 0x7FC00000 = true := by decide
  refine ⟨by simp [BuildArincWordFloat], by decide, hp, hn, ?_⟩
  simp only [SplitArincWordFloat, hp, hn]
  rfl

/-- C7 witness: `data = 1.0f`, `label = 128`. -/
theorem invalid_float_payload_witness :
    BuildArincWordFloat mulByOne 0x3F800000 false 128 = 0x3FE00000 ||| 128 ∧
    0x7FC00000 >>> 1 = 0x3FE00000 ∧
    floatPattern (BuildArincWordFloat mulByOne 0x3F800000 false 128) = 0x7FC00000 ∧
    isnanBits 0x7FC00000 = true ∧
    SplitArincWordFloat (BuildArincWordFloat mulByOne 0x3F800000 false 128) = (0, false) :=
  invalid_float_payload mulByOne 0x3F800000 128 (by decide)

/-- C8: for every 32-bit pattern `u` of the product `1.000030f * data` and every
`label` in 0..255, the valid branch of `BuildArincWordFloat` yields
`((u >> 1) & 0x7FFFFF00) | label`, and `SplitArincWordFloat` reinterprets from that word
exactly `u & 0xFFFFFE00`: bits 9 and above of `u` (sign, exponent, top 14 mantissa
bits) are preserved, the low 9 bits are cleared, and the label has no influence. -/
theorem float_roundtrip_bits (fmul : Nat → Nat → Nat) (data label u : Nat)
    (hu : fmul scaleFactorBits data % 4294967296 = u) (hl : label < 256) :
    BuildArincWordFloat fmul data true label = ((u >>> 1) &&& 0x7FFFFF00) ||| label ∧
    floatPattern (BuildArincWordFloat fmul data true label) = u &&& 0xFFFFFE00 ∧
    (∀ i, 9 ≤ i →
      (floatPattern (BuildArincWordFloat fmul data true label)).testBit i = u.testBit i) ∧
    (∀ i, i < 9 →
      (floatPattern (BuildArincWordFloat fmul data true label)).testBit i = false) ∧
    (∀ label2, label2 < 256 →
      floatPattern (BuildArincWordFloat fmul data true label2)
        = floatPattern (BuildArincWordFloat fmul data true label)) := by
  have hlt : u < 4294967296 := by omega
  have hp := floatPattern_build fmul data label u hu hl
  have hb := testBit_and_fffffe00 u hlt
  refine ⟨by simp [BuildArincWordFloat, hu], hp, ?_, ?_, ?_⟩
  · intro i hi
    rw [hp]
    exact hb.1 i hi
  · intro i hi
    rw [hp]
    exact hb.2 i hi
  · intro label2 h2
    rw [hp, floatPattern_build fmul data label2 u hu h2]

/-- C8 witness: `data = 1.0f`, whose product is the pattern `0x3F8000FC` of
`1.000030f`, with `label = 128`; the decoded pattern is `0x3F800000`. -/
theorem float_roundtrip_bits_witness :
    mulByOne scaleFactorBits 0x3F800000 % 4294967296 = 0x3F8000FC ∧
    floatPattern (BuildArincWordFloat mulByOne 0x3F800000 true 128)
      = 0x3F8000FC &&& 0xFFFFFE00 :=
  ⟨by decide, (float_roundtrip_bits mulByOne 0x3F800000 128 0x3F8000FC (by decide)
    (by decide)).2.1⟩

/-- C9 (as stated, refuted): for `data = 1.0f` the product `1.000030f * data` is the
pattern `u = 0x3F8000FC` (not a NaN); `SplitArincWordFloat` of the word built with
`vld = true` returns the pattern `0x3F800000`, which differs from `u` in bit 2, a bit
other than the lowest-order mantissa bit. -/
theorem float_roundtrip_loses_more_than_one_bit :
    isnanBits 0x3F800000 = false ∧
    mulByOne scaleFactorBits 0x3F800000 % 4294967296 = 0x3F8000FC ∧
    isnanBits 0x3F8000FC = false ∧
    SplitArincWordFloat (BuildArincWordFloat mulByOne 0x3F800000 true 0)
      = (0x3F800000, true) ∧
    Nat.testBit 0x3F8000FC 2 = true ∧
    Nat.testBit (SplitArincWordFloat (BuildArincWordFloat mulByOne 0x3F800000 true 0)).1 2
      = false ∧
    ¬ (∀ i, 1 ≤ i →
      Nat.testBit (SplitArincWordFloat (BuildArincWordFloat mulByOne 0x3F800000 true 0)).1 i
        = Nat.testBit 0x3F8000FC i) := by
  have e : SplitArincWordFloat (BuildArincWordFloat mulByOne 0x3F800000 true 0)
      = (0x3F800000, true) := by decide
  refine ⟨by decide, by decide, by decide, e, by decide, ?_, ?_⟩
  · rw [e]
    decide
  · intro h
    have h2 := h 2 (by decide)
    rw [e] at h2
    exact absurd h2 (by decide)

/-- C9 (amended): for every product pattern `u` that is not a NaN and every `label` in
0..255, `SplitArincWordFloat` of `BuildArincWordFloat(data, true, label)` returns
`vld = true` and the pattern `u & 0xFFFFFE00`: it agrees with `u` in every bit except
possibly the nine lowest-order mantissa bits (bits 0-8), which are cleared. -/
theorem float_roundtrip_precision (fmul : Nat → Nat → Nat) (data label u : Nat)
    (hu : fmul scaleFactorBits data % 4294967296 = u) (hn : isnanBits u = false)
    (hl : label < 256) :
    (SplitArincWordFloat (BuildArincWordFloat fmul data true label)).2 = true ∧
    (SplitArincWordFloat (BuildArincWordFloat fmul data true label)).1
      = u &&& 0xFFFFFE00 ∧
    (∀ i, 9 ≤ i →
      (SplitArincWordFloat (BuildArincWordFloat fmul data true label)).1.testBit i
        = u.testBit i) ∧
    (∀ i, i < 9 →
      (SplitArincWordFloat (BuildArincWordFloat fmul data true label)).1.testBit i
        = false) := by
  have hlt : u < 4294967296 := by omega
  have hp := floatPattern_build fmul data label u hu hl
  have hb := testBit_and_fffffe00 u hlt
  have hn2 : isnanBits (u &&& 0xFFFFFE00) = false := by
    rw [Bool.eq_false_iff] at hn ⊢
    intro h
    apply hn
    rw [isnanBits_iff] at h ⊢
    rw [and_fffffe00] at h
    omega
  have e : SplitArincWordFloat (BuildArincWordFloat fmul data true label)
      = (u &&& 0xFFFFFE00, true) := by
    simp only [SplitArincWordFloat, hp, hn2]
    rfl
  rw [e]
  exact ⟨rfl, rfl, hb.1, hb.2⟩

/-- C9 witness: `data = 1.0f`, product pattern `0x3F8000FC`, `label = 128`. -/
theorem float_roundtrip_precision_witness :
    mulByOne scaleFactorBits 0x3F800000 % 4294967296 = 0x3F8000FC ∧
    isnanBits 0x3F8000FC = false ∧
    (SplitArincWordFloat (BuildArincWordFloat mulByOne 0x3F800000 true 128)).2 = true ∧
    (SplitArincWordFloat (BuildArincWordFloat mulByOne 0x3F800000 true 128)).1
      = 0x3F8000FC &&& 0xFFFFFE00 :=
  ⟨by decide, by decide,
    (float_roundtrip_precision mulByOne 0x3F800000 128 0x3F8000FC (by decide) (by decide)
      (by decide)).1,
    (float_roundtrip_precision mulByOne 0x3F800000 128 0x3F8000FC (by decide) (by decide)
      (by decide)).2.1⟩

/-! ## SSM combiner -/

/-- C10: for every pair of bytes, `cbnSsm` returns 3 iff both inputs are 3; otherwise
it returns 0 iff at least one input is 0; otherwise it returns 1. In particular
`cbnSsm(3,3)=3`, `cbnSsm(0,2)=0`, `cbnSsm(2,0)=0`, `cbnSsm(1,1)=1`, `cbnSsm(3,0)=0`,
and the result is never 2. -/
theorem cbnSsm_rule (Ssm1 Ssm2 : Nat) (_h1 : Ssm1 < 256) (_h2 : Ssm2 < 256) :
    (cbnSsm Ssm1 Ssm2 = 3 ↔ Ssm1 = 3 ∧ Ssm2 = 3) ∧
    (¬ (Ssm1 = 3 ∧ Ssm2 = 3) → (cbnSsm Ssm1 Ssm2 = 0 ↔ Ssm1 = 0 ∨ Ssm2 = 0)) ∧
    (¬ (Ssm1 = 3 ∧ Ssm2 = 3) → ¬ (Ssm1 = 0 ∨ Ssm2 = 0) → cbnSsm Ssm1 Ssm2 = 1) ∧
    cbnSsm 3 3 = 3 ∧ cbnSsm 0 2 = 0 ∧ cbnSsm 2 0 = 0 ∧ cbnSsm 1 1 = 1 ∧ cbnSsm 3 0 = 0 ∧
    cbnSsm Ssm1 Ssm2 ≠ 2 := by
  unfold cbnSsm
  refine ⟨?_, ?_, ?_, by decide, by decide, by decide, by decide, by decide, ?_⟩
  · split_ifs <;> simp_all
  · intro h
    split_ifs <;> simp_all
  · intro h h0
    rw [if_neg h, if_neg h0]
  · split_ifs
    all_goals simp

/-- C10 witness: the pair `(3, 1)`, which combines to 1. -/
theorem cbnSsm_rule_witness :
    (cbnSsm 3 1 = 3 ↔ 3 = 3 ∧ 1 = 3) ∧
    (¬ (3 = 3 ∧ 1 = 3) → (cbnSsm 3 1 = 0 ↔ 3 = 0 ∨ 1 = 0)) ∧
    (¬ (3 = 3 ∧ 1 = 3) → ¬ (3 = 0 ∨ 1 = 0) → cbnSsm 3 1 = 1) ∧
    cbnSsm 3 3 = 3 ∧ cbnSsm 0 2 = 0 ∧ cbnSsm 2 0 = 0 ∧ cbnSsm 1 1 = 1 ∧ cbnSsm 3 0 = 0 ∧
    cbnSsm 3 1 ≠ 2 :=
  cbnSsm_rule 3 1 (by decide) (by decide)

/-! ## Label table -/

set_option maxRecDepth 100000 in
/-- The table lists the bit reversals of 0..255 in order. -/
theorem labelTable_eq : labelTable = (List.range 256).map reverse8 := by
  decide

/-- Reversing the bits of a byte gives a byte. -/
theorem reverse8_lt (n : Nat) : reverse8 n < 256 := by
  unfold reverse8
  omega

set_option maxRecDepth 100000 in
/-- Reversing the bits of a byte twice gives the byte back. -/
theorem reverse8_involutive : ∀ n, n < 256 → reverse8 (reverse8 n) = n := by
  decide

/-- Entry `n` of the table is the bit reversal of `n`. -/
theorem wireLabel_eq_reverse8 (n : Nat) (h : n < 256) : wireLabel n = reverse8 n := by
  unfold wireLabel
  rw [labelTable_eq, List.getD_eq_getElem?_getD, List.getElem?_map,
    List.getElem?_range h]
  rfl

/-- C11: for every `n` in 0..255 the constant `o<NNN>` (`NNN` the octal writing of
`n`, entry `n` of the table) is the reversal of the 8 bits of `n`, e.g. `o001 = 128`,
`o377 = 255`, `o000 = 0`; the table maps 0..255 into 0..255, is its own inverse, hence
is injective and onto 0..255. -/
theorem label_table_bit_reversal (n : Nat) (h : n < 256) :
    wireLabel n = reverse8 n ∧
    wireLabel n < 256 ∧
    wireLabel (wireLabel n) = n ∧
    (∀ m, m < 256 → wireLabel m = wireLabel n → m = n) ∧
    (∃ m, m < 256 ∧ wireLabel m = n) ∧
    (wireLabel 1 = o001 ∧ o001 = 128) ∧ (wireLabel 255 = o377 ∧ o377 = 255) ∧
    (wireLabel 0 = o000 ∧ o000 = 0) := by
  have e := wireLabel_eq_reverse8 n h
  have lt : wireLabel n < 256 := by rw [e]; exact reverse8_lt n
  have inv : ∀ k, k < 256 → wireLabel (wireLabel k) = k := by
    intro k hk
    rw [wireLabel_eq_reverse8 k hk, wireLabel_eq_reverse8 _ (reverse8_lt k)]
    exact reverse8_involutive k hk
  refine ⟨e, lt, inv n h, ?_, ⟨wireLabel n, lt, inv n h⟩, ⟨rfl, rfl⟩, ⟨rfl, rfl⟩, ⟨rfl, rfl⟩⟩
  intro m hm hmn
  rw [← inv m hm, hmn, inv n h]

/-- C11 witness: label 001 (octal), whose wire value is 128. -/
theorem label_table_bit_reversal_witness :
    wireLabel 1 = reverse8 1 ∧ wireLabel 1 < 256 ∧ wireLabel (wireLabel 1) = 1 :=
  ⟨(label_table_bit_reversal 1 (by decide)).1, (label_table_bit_reversal 1 (by decide)).2.1,
    (label_table_bit_reversal 1 (by decide)).2.2.1⟩

/-! ## Rounding -/

/-- C12: for every quantized value `x` (an exact rational), the rounded integer
`r = trunc(x + 0.5)` if `x > 0` else `trunc(x - 0.5)` satisfies `|r - x| ≤ 1/2`; when `x`
is a half-integer `k + 1/2` then `|r| = |x| + 1/2` (ties go away from zero:
`2.5 → 3`, `-2.5 → -3`); and `x = 0` gives `r = 0`. -/
theorem rounding_ties_away (x : ℚ) :
    |((roundLong x : Int) : ℚ) - x| ≤ 1 / 2 ∧
    (∀ k : Int, x = (k : ℚ) + 1 / 2 →
      |((roundLong x : Int) : ℚ)| = |x| + 1 / 2) ∧
    roundLong (5 / 2) = 3 ∧ roundLong (-5 / 2) = -3 ∧ roundLong 0 = 0 := by
  refine ⟨roundLong_err x, ?_, ?_, ?_, ?_⟩
  · intro k hk
    subst hk
    unfold roundLong ftol
    by_cases hx : (k : ℚ) + 1 / 2 > 0
    · have hk0 : (0 : ℚ) ≤ (k : ℚ) + 1 / 2 + 1 / 2 := by linarith
      have e : (k : ℚ) + 1 / 2 + 1 / 2 = ((k + 1 : Int) : ℚ) := by push_cast; ring
      simp only [hx, hk0, if_true]
      rw [e, Int.floor_intCast, abs_of_pos hx]
      have hk1 : (0 : ℚ) ≤ ((k + 1 : Int) : ℚ) := by rw [← e]; exact hk0
      rw [abs_of_nonneg hk1]
      push_cast
      ring
    · have hx2 : (k : ℚ) + 1 / 2 ≤ 0 := not_lt.mp hx
      have e : (k : ℚ) + 1 / 2 - 1 / 2 = ((k : Int) : ℚ) := by ring
      have hk0 : ¬ ((0 : ℚ) ≤ (k : ℚ) + 1 / 2 - 1 / 2) := by
        rw [not_le]
        linarith
      simp only [hx, hk0, if_false]
      rw [e, Int.ceil_intCast]
      have hk1 : ((k : Int) : ℚ) ≤ 0 := by linarith
      rw [abs_of_nonpos hx2, abs_of_nonpos hk1]
      ring
  · norm_num [roundLong, ftol]
  · norm_num [roundLong, ftol]
    rw [show (-3 : ℚ) = ((-3 : Int) : ℚ) by norm_num, Int.ceil_intCast]
  · norm_num [roundLong, ftol]

/-- C12 witness: the tie `x = 2 + 1/2`, rounded to 3. -/
theorem rounding_ties_away_witness :
    ((5 : ℚ) / 2 = ((2 : Int) : ℚ) + 1 / 2) ∧
    |((roundLong (5 / 2) : Int) : ℚ)| = |(5 : ℚ) / 2| + 1 / 2 :=
  ⟨by norm_num, (rounding_ties_away (5 / 2)).2.1 2 (by norm_num)⟩

/-! ## Decoding of arbitrary words -/

/-- The signed value of a field only depends on the bits of the field. -/
theorem signedField_congr (n x y : Nat) (h : x % 2 ^ n = y % 2 ^ n) :
    signedField n x = signedField n y := by
  unfold signedField
  rw [h]

/-- The mask `3` keeps the two low bits. -/
theorem and_3 (x : Nat) : x &&& 3 = x % 4 := and_03 x

/-- C13 (as stated, refuted): for the word `aw = 0xC00` (19-bit field `S = 3`) and
`range = 0.1f` (`0x3DCCCCCD`), the code's binary32 product is the pattern `0x3599999A`,
which is not `range * S / 2^18`: that value, `40265319 / 2^45`, is not a binary32
value. -/
theorem split_data_is_rounded :
    f32Value 0x3DCCCCCD = 13421773 / 134217728 ∧
    signedField 19 (0xC00 >>> 10) = 3 ∧
    (SplitArincWordF32 0xC00 false (f32Value 0x3DCCCCCD)).1 = f32Value 0x3599999A ∧
    f32Value 0x3DCCCCCD * 3 / 2 ^ 18 = 40265319 / 2 ^ 45 ∧
    (SplitArincWordF32 0xC00 false (f32Value 0x3DCCCCCD)).1
      ≠ f32Value 0x3DCCCCCD * 3 / 2 ^ 18 := by
  have p19 : (2 : Nat) ^ 19 = 524288 := by norm_num
  have p18 : (2 : Nat) ^ (19 - 1) = 262144 := by norm_num
  have e10 : (0xC00 : Nat) >>> 10 = 3 := by decide
  have f : signedField 19 (0xC00 >>> 10) = 3 := by
    rw [e10]
    simp only [signedField, p19, p18]
    norm_num
  rw [f32Value_tenth, f32Value_3599999A, splitF32_C00_tenth]
  refine ⟨rfl, f, rfl, by norm_num, by norm_num⟩

/-- C13 (amended): for every word `aw` and range, `SplitArincWord` returns
`ssm = (aw >> 29) & 3`; `sdi = (aw >> 8) & 3` when `noSdi` is false and 0 when it is
true; with the arithmetic of the split formula taken as exact,
`data = range * S / 2^18` with `S` the two's-complement value of the 19-bit field in
bits 10..28 when `noSdi` is false, and `data = range * S / 2^20` with `S` the
two's-complement value of the 21-bit field in bits 8..28 when `noSdi` is true; in the
binary32 arithmetic of the code, `ssm` and `sdi` are the same and, for a binary32
range that is zero or of magnitude at least `2^-95`, `data` is that value rounded to
binary32. -/
theorem split_reference_layout (aw : Nat) (range : ℚ) :
    (SplitArincWord aw false range).2.1 = (aw >>> 29) &&& 3 ∧
    (SplitArincWord aw true range).2.1 = (aw >>> 29) &&& 3 ∧
    (SplitArincWord aw false range).2.2 = (aw >>> 8) &&& 3 ∧
    (SplitArincWord aw true range).2.2 = 0 ∧
    (SplitArincWord aw false range).1
      = range * ((signedField 19 (aw >>> 10) : Int) : ℚ) / 2 ^ 18 ∧
    (SplitArincWord aw true range).1
      = range * ((signedField 21 (aw >>> 8) : Int) : ℚ) / 2 ^ 20 ∧
    (SplitArincWordF32 aw false range).2.1 = (aw >>> 29) &&& 3 ∧
    (SplitArincWordF32 aw true range).2.1 = (aw >>> 29) &&& 3 ∧
    (SplitArincWordF32 aw false range).2.2 = (aw >>> 8) &&& 3 ∧
    (SplitArincWordF32 aw true range).2.2 = 0 ∧
    (roundF32 range = range → (range = 0 ∨ (2 : ℚ) ^ (-95 : Int) ≤ |range|) →
      (SplitArincWordF32 aw false range).1
        = roundF32 (range * ((signedField 19 (aw >>> 10) : Int) : ℚ) / 2 ^ 18) ∧
      (SplitArincWordF32 aw true range).1
        = roundF32 (range * ((signedField 21 (aw >>> 8) : Int) : ℚ) / 2 ^ 20)) := by
  have e29 : aw >>> 29 = aw / 536870912 := by rw [Nat.shiftRight_eq_div_pow]
  have e10 : aw >>> 10 = aw / 1024 := by rw [Nat.shiftRight_eq_div_pow]
  have e8 : aw >>> 8 = aw / 256 := by rw [Nat.shiftRight_eq_div_pow]
  have p18 : (2 : ℚ) ^ 18 = 262144 := by norm_num
  have p20 : (2 : ℚ) ^ 20 = 1048576 := by norm_num
  simp only [and_3, e29, e10, e8, p18, p20]
  refine ⟨split_ssm aw false range, split_ssm aw true range, split_sdi aw range,
    split_sdi_nosdi aw range, split_data_sdi aw range, split_data_nosdi aw range,
    ?_, ?_, ?_, ?_, ?_⟩
  · rw [splitF32_ssm_sdi]; exact split_ssm aw false range
  · rw [splitF32_ssm_sdi]; exact split_ssm aw true range
  · rw [splitF32_ssm_sdi]; exact split_sdi aw range
  · rw [splitF32_ssm_sdi]; exact split_sdi_nosdi aw range
  · intro hr hb
    exact splitF32_data_rounded aw range hr hb

/-- C13 witness: the word `0x28000080` with the binary32 range `4096`. -/
theorem split_reference_layout_witness :
    roundF32 4096 = 4096 ∧ (2 : ℚ) ^ (-95 : Int) ≤ |(4096 : ℚ)| ∧
    (SplitArincWordF32 0x28000080 false 4096).1
      = roundF32 (4096 * ((signedField 19 (0x28000080 >>> 10) : Int) : ℚ) / 2 ^ 18) ∧
    (SplitArincWordF32 0x28000080 true 4096).1
      = roundF32 (4096 * ((signedField 21 (0x28000080 >>> 8) : Int) : ℚ) / 2 ^ 20) :=
  have h : roundF32 4096 = 4096 :=
    roundF32_exact 4096 12 8388608 (by norm_num) (by norm_num) (by norm_num) (by norm_num)
  have b : (2 : ℚ) ^ (-95 : Int) ≤ |(4096 : ℚ)| := by
    rw [abs_of_pos (by norm_num)]
    exact le_trans (zpow_le_one_of_nonpos₀ (by norm_num) (by norm_num)) (by norm_num)
  ⟨h, b, (split_reference_layout 0x28000080 4096).2.2.2.2.2.2.2.2.2.2 h (Or.inr b)⟩

/-! ## Validity flag of the float round trip -/

/-- The flag returned by `SplitArincWordFloat` is the negated NaN test of the
reinterpreted pattern. -/
theorem splitFloat_vld (aw : Nat) :
    (SplitArincWordFloat aw).2 = !isnanBits (floatPattern aw) := rfl

/-- The flag decoded from the word of the valid branch is false exactly when the
exponent of `u` is all ones and one of its mantissa bits 9..22 is set. -/
theorem vld_false_iff (fmul : Nat → Nat → Nat) (data label u : Nat)
    (hu : fmul scaleFactorBits data % 4294967296 = u) (hl : label < 256) :
    (SplitArincWordFloat (BuildArincWordFloat fmul data true label)).2 = false ↔
      u / 8388608 % 256 = 255 ∧ u / 512 % 16384 ≠ 0 := by
  have hlt : u < 4294967296 := by omega
  rw [splitFloat_vld, floatPattern_build fmul data label u hu hl, and_fffffe00]
  rw [Bool.not_eq_false', isnanBits_iff]
  omega

/-- C14: for every 32-bit pattern `u` of the product `1.000030f * data`, a NaN
product being quiet (mantissa bit 22 set), and every `label` in 0..255, the word of the
valid branch is `((u >> 1) & 0x7FFFFF00) | label` and the flag `vld` decoded from it by
`SplitArincWordFloat` is false if and only if `u` is a NaN pattern (exponent bits all
ones and mantissa non-zero): no non-NaN value is reported invalid and every NaN is
reported invalid. -/
theorem nan_survives_roundtrip (fmul : Nat → Nat → Nat) (data label u : Nat)
    (hu : fmul scaleFactorBits data % 4294967296 = u)
    (hq : isnanBits u = true → u.testBit 22 = true) (hl : label < 256) :
    BuildArincWordFloat fmul data true label = ((u >>> 1) &&& 0x7FFFFF00) ||| label ∧
    ((SplitArincWordFloat (BuildArincWordFloat fmul data true label)).2 = false ↔
      isnanBits u = true) ∧
    (isnanBits u = true ↔ u / 2 ^ 23 % 2 ^ 8 = 255 ∧ u % 2 ^ 23 ≠ 0) ∧
    (isnanBits u = false →
      (SplitArincWordFloat (BuildArincWordFloat fmul data true label)).2 = true) ∧
    (isnanBits u = true →
      (SplitArincWordFloat (BuildArincWordFloat fmul data true label)).2 = false) := by
  have hlt : u < 4294967296 := by omega
  have key := vld_false_iff fmul data label u hu hl
  have quiet : isnanBits u = true → u / 4194304 % 2 = 1 := by
    intro hn
    have h22 := hq hn
    rw [Nat.testBit_to_div_mod, decide_eq_true_eq] at h22
    norm_num at h22
    exact h22
  have main : (SplitArincWordFloat (BuildArincWordFloat fmul data true label)).2 = false ↔
      isnanBits u = true := by
    rw [key]
    constructor
    · intro h
      rw [isnanBits_iff]
      omega
    · intro hn
      have h22 := quiet hn
      rw [isnanBits_iff] at hn
      omega
  refine ⟨by simp [BuildArincWordFloat, hu], main, ?_, ?_, main.mpr⟩
  · rw [isnanBits_iff]
    norm_num
  · intro hn
    rw [← Bool.not_eq_false, main]
    simp [hn]

/-- C14 witness: the signalling NaN `data = 0x7F800001`, whose product is the quiet NaN
`u = 0x7FC00001`, is reported invalid; `data = 1.0f`, whose product is the pattern
`0x3F8000FC`, is reported valid; both with `label = 128`. -/
theorem nan_survives_roundtrip_witness :
    (mulQuietNaN scaleFactorBits 0x7F800001 % 4294967296 = 0x7FC00001 ∧
      isnanBits 0x7FC00001 = true ∧ Nat.testBit 0x7FC00001 22 = true ∧
      (SplitArincWordFloat (BuildArincWordFloat mulQuietNaN 0x7F800001 true 128)).2
        = false) ∧
    (mulByOne scaleFactorBits 0x3F800000 % 4294967296 = 0x3F8000FC ∧
      isnanBits 0x3F8000FC = false ∧
      (SplitArincWordFloat (BuildArincWordFloat mulByOne 0x3F800000 true 128)).2 = true) :=
  ⟨⟨by decide, by decide, by decide,
      (nan_survives_roundtrip mulQuietNaN 0x7F800001 128 0x7FC00001 (by decide)
        (fun _ => by decide) (by decide)).2.2.2.2 (by decide)⟩,
    ⟨by decide, by decide,
      (nan_survives_roundtrip mulByOne 0x3F800000 128 0x3F8000FC (by decide)
        (fun h => absurd h (by decide)) (by decide)).2.2.2.1 (by decide)⟩⟩

/-! ## Safe domain of the round trip -/

/-- C16: for every range and every two words `aw1`, `aw2` that agree on bits 10..28
(`noSdi = false`), resp. on bits 8..28 (`noSdi = true`), `SplitArincWord` returns the
same data for both, whatever their other bits. -/
theorem split_data_only_data_field (aw1 aw2 : Nat) (range : ℚ) :
    ((aw1 >>> 10) % 2 ^ 19 = (aw2 >>> 10) % 2 ^ 19 →
      (SplitArincWord aw1 false range).1 = (SplitArincWord aw2 false range).1) ∧
    ((aw1 >>> 8) % 2 ^ 21 = (aw2 >>> 8) % 2 ^ 21 →
      (SplitArincWord aw1 true range).1 = (SplitArincWord aw2 true range).1) := by
  constructor
  · intro h
    rw [Nat.shiftRight_eq_div_pow, Nat.shiftRight_eq_div_pow] at h
    rw [split_data_sdi, split_data_sdi, signedField_congr 19 _ _ h]
  · intro h
    rw [Nat.shiftRight_eq_div_pow, Nat.shiftRight_eq_div_pow] at h
    rw [split_data_nosdi, split_data_nosdi, signedField_congr 21 _ _ h]

/-- C16 witness: the words `0x00155400` and `0xE01557FF` differ in label, SDI, SSM and
parity bits and agree on bits 10..28; `0x00155400` and `0xE01554FF` differ in label,
SSM and parity bits and agree on bits 8..28. -/
theorem split_data_only_data_field_witness :
    (SplitArincWord 0x00155400 false 4096).1 = (SplitArincWord 0xE01557FF false 4096).1 ∧
    (SplitArincWord 0x00155400 true 4096).1 = (SplitArincWord 0xE01554FF true 4096).1 :=
  ⟨(split_data_only_data_field 0x00155400 0xE01557FF 4096).1 (by decide),
    (split_data_only_data_field 0x00155400 0xE01554FF 4096).2 (by decide)⟩

/-! ## Label and parity bits of the built words -/

/-- Bits of the mask `0x800000FF`. -/
theorem testBit_800000ff (i : Nat) :
    Nat.testBit 0x800000FF i = (decide (i < 8) || decide (i = 31)) := by
  have e : (0x800000FF : Nat) = 2 ^ 31 ||| (2 ^ 8 - 1) := by decide
  rw [e, Nat.testBit_or, Nat.testBit_two_pow, Nat.testBit_two_pow_sub_one, Bool.or_comm]
  by_cases h : i = 31
  · subst h
    simp
  · have h2 : ¬ (31 = i) := fun e => h e.symm
    simp [h, h2]

/-- On a word below `2^31` the mask `0x800000FF` keeps the low byte. -/
theorem and_800000ff (x : Nat) (hx : x < 2147483648) : x &&& 0x800000FF = x % 256 := by
  apply Nat.eq_of_testBit_eq
  intro i
  have e8 : (256 : Nat) = 2 ^ 8 := by norm_num
  rw [Nat.testBit_and, testBit_800000ff, e8, Nat.testBit_mod_two_pow]
  by_cases h : i < 8
  · simp [h]
  · by_cases h31 : i = 31
    · subst h31
      have hb : x.testBit 31 = false := by
        apply Nat.testBit_lt_two_pow
        norm_num
        exact hx
      simp [hb]
    · simp [h, h31]

/-- C17: for every `label` in 0..255, the word `w` returned by `BuildArincWord` (with
`ssm` in 0..3, any data, range and sdi) and by `BuildArincWordFloat` (valid or invalid
branch, any data) satisfies `w & 0x800000FF = label`: bit 31 is 0 and bits 0-7 are the
label. -/
theorem builders_keep_label_and_parity (r d : ℚ) (ssm sdi label : Nat)
    (fmul : Nat → Nat → Nat) (data : Nat) (vld : Bool) (hs : ssm < 4)
    (hl : label < 256) :
    BuildArincWord r d ssm sdi label &&& 0x800000FF = label ∧
    BuildArincWordFloat fmul data vld label &&& 0x800000FF = label ∧
    BuildArincWord r d ssm sdi label < 2 ^ 31 ∧
    BuildArincWord r d ssm sdi label % 2 ^ 8 = label ∧
    BuildArincWordFloat fmul data vld label < 2 ^ 31 ∧
    BuildArincWordFloat fmul data vld label % 2 ^ 8 = label := by
  have b1 : BuildArincWord r d ssm sdi label < 2147483648
      ∧ BuildArincWord r d ssm sdi label % 256 = label := by
    by_cases h4 : sdi < 4
    · rw [build_sdi_eq r d ssm sdi label hs h4 hl]
      constructor <;> omega
    · rw [build_nosdi_eq r d ssm sdi label hs (by omega) hl]
      constructor <;> omega
  have b2 : BuildArincWordFloat fmul data vld label < 2147483648
      ∧ BuildArincWordFloat fmul data vld label % 256 = label := by
    cases vld
    · rw [buildFloat_invalid_eq fmul data label hl]
      constructor <;> omega
    · rw [buildFloat_valid_eq fmul data label _ rfl hl]
      constructor <;> omega
  rw [and_800000ff _ b1.1, and_800000ff _ b2.1]
  norm_num
  exact ⟨b1.2, b2.2, b1.1, b1.2, b2.1, b2.2⟩

/-- C17 witness: an overflowing negative payload with `ssm = 3`, `sdi = 3`,
`label = 255`, and the float word of `data = 1.0f`. -/
theorem builders_keep_label_and_parity_witness :
    BuildArincWord 1 (-7) 3 3 255 &&& 0x800000FF = 255 ∧
    BuildArincWordFloat mulByOne 0x3F800000 true 255 &&& 0x800000FF = 255 :=
  ⟨(builders_keep_label_and_parity 1 (-7) 3 3 255 mulByOne 0x3F800000 true (by decide)
      (by decide)).1,
    (builders_keep_label_and_parity 1 (-7) 3 3 255 mulByOne 0x3F800000 true (by decide)
      (by decide)).2.1⟩

/-! ## Algebra of the SSM combiner -/

/-- The three classes of status values that `cbnSsm` distinguishes. -/
theorem ssm_class (x : Nat) : x = 3 ∨ x = 0 ∨ (x ≠ 3 ∧ x ≠ 0) := by omega

/-- C18: for all bytes `a`, `b`, `c`, `cbnSsm(a, b) = cbnSsm(b, a)` and
`cbnSsm(cbnSsm(a, b), c) = cbnSsm(a, cbnSsm(b, c))`, so three channels combine to the
same status in any order. -/
theorem cbnSsm_comm_assoc (a b c : Nat) (_ha : a < 256) (_hb : b < 256) (_hc : c < 256) :
    cbnSsm a b = cbnSsm b a ∧
    cbnSsm (cbnSsm a b) c = cbnSsm a (cbnSsm b c) ∧
    cbnSsm (cbnSsm a b) c = cbnSsm (cbnSsm b c) a ∧
    cbnSsm (cbnSsm a b) c = cbnSsm (cbnSsm a c) b := by
  rcases ssm_class a with rfl | rfl | ⟨a3, a0⟩ <;>
  rcases ssm_class b with rfl | rfl | ⟨b3, b0⟩ <;>
  rcases ssm_class c with rfl | rfl | ⟨c3, c0⟩ <;>
  simp [cbnSsm, *]

/-- C18 witness: the bytes 3, 3 and 2. -/
theorem cbnSsm_comm_assoc_witness :
    cbnSsm 3 2 = cbnSsm 2 3 ∧
    cbnSsm (cbnSsm 3 3) 2 = cbnSsm 3 (cbnSsm 3 2) :=
  ⟨(cbnSsm_comm_assoc 3 2 3 (by decide) (by decide) (by decide)).1,
    (cbnSsm_comm_assoc 3 3 2 (by decide) (by decide) (by decide)).2.1⟩

end HI3593
